import Mathlib

/-!
Verification of the MiniGit version-control tool.

The development shallowly embeds the C++ sources as pure Lean functions:
C++ `std::string` is modelled as Lean `String` (manipulated through its
underlying character list; file contents in this project are ASCII), the
on-disk repository (object store, refs, HEAD file, index, working tree) is
modelled as a record of association lists keyed by strings, and every
repository-mutating member function of the `MiniGit` class becomes a state
transformer on that record.  Wall-clock reads (`std::time`,
`std::chrono::system_clock::now`) become explicit parameters.  Machine
integers (`size_t`, the SHA-1 words) are `Nat` with explicit reductions
modulo `2 ^ 64` respectively `2 ^ 32`.

Namespace `MGP` embeds `MiniGit-Project.cpp` (the integrated variant based
on OpenSSL SHA-1); namespace `P2` embeds the variant in
`src/unnamed/part_002` (the one based on `generate_simple_hash`, with the
git-style textual commit serialization).
-/

/-! ## Character-list string utilities

The C++ code reads files line by line with `std::getline` and tokenizes
lines with `operator>>` on an `istringstream`.  Both are modelled by one
generic splitter on character lists.
-/

/-- Split a character list at every character satisfying `p`; the separator
characters are dropped.  `splitP (· = chr 10) l` models the sequence of
lines that repeated `std::getline` calls produce from the contents `l`
(note that a trailing newline does not produce a trailing empty line,
exactly as with `std::getline`). -/
def splitP (p : Char → Bool) : List Char → List (List Char)
  | [] => []
  | c :: t =>
    if p c then [] :: splitP p t
    else
      match splitP p t with
      | [] => [[c]]
      | a :: as => (c :: a) :: as

/-- Characters treated as whitespace by `operator>>` extraction from an
`istringstream` (the `" \t\n\v\f\r"` class of `std::isspace`). -/
def isCppSpace (c : Char) : Bool :=
  c = ' ' || c = '\t' || c = '\n' || c = '\x0b' || c = '\x0c' || c = '\r'

/-- The lines obtained by running `std::getline` repeatedly over `s`. -/
def getLines (s : String) : List String :=
  (splitP (· = '\n') s.data).map String.mk

/-- The whitespace-separated tokens that successive `operator>>`
extractions read from a line (empty fields between adjacent separators are
skipped, as `operator>>` skips leading whitespace). -/
def cppTokens (s : String) : List String :=
  ((splitP isCppSpace s.data).filter (· ≠ [])).map String.mk

/-- Model of `std::string::rfind(pre, 0) == 0` / a `startsWith` test. -/
def strStartsWith (s pre : String) : Bool :=
  pre.data.isPrefixOf s.data

/-- Model of `std::string::substr(n)`: the suffix after the first `n`
characters. -/
def strDrop (s : String) : Nat → String :=
  fun n => String.mk (s.data.drop n)

/-- Model of `std::string::length()`. -/
def strLen (s : String) : Nat :=
  s.data.length

/-- The last `n` characters of `s`; models `substr(length() - n)`. -/
def strTakeRight (s : String) (n : Nat) : String :=
  String.mk (s.data.drop (s.data.length - n))

/-- Model of the `pop_back` performed on the accumulated message when it
ends with a newline (`if (!msg.empty() && msg.back() == '\n') msg.pop_back()`). -/
def strPopNewline (s : String) : String :=
  if s.data ≠ [] ∧ s.data.getLast? = some '\n' then String.mk s.data.dropLast else s

/-- Lexicographic comparison of character lists by code point, the
order `std::less<std::string>` uses for `std::map` keys (contents here
are ASCII, where code points and bytes agree). -/
def strLtB : List Char → List Char → Bool
  | [], [] => false
  | [], _ :: _ => true
  | _ :: _, [] => false
  | a :: as, b :: bs =>
    if a.toNat < b.toNat then true
    else if b.toNat < a.toNat then false
    else strLtB as bs

/-- The `std::string` comparison underlying `std::map` ordering. -/
def strLt (s t : String) : Bool :=
  strLtB s.data t.data

/-! ## Association lists

`std::map<std::string, std::string>` keeps its entries sorted by key and
`operator[]` performs an insert-or-assign; both are modelled on sorted
association lists.  `aLookup` also models `std::map::count`/`at` pairs and
file-existence checks on directories of the repository. -/

/-- Lookup in an association list (first entry wins). -/
def aLookup {α : Type} : List (String × α) → String → Option α
  | [], _ => none
  | (k, v) :: t, key => if key = k then some v else aLookup t key

/-- Value lookup defaulting to `""`, modelling
`m.count(k) ? m.at(k) : ""` as used throughout the merge code. -/
def aFind (m : List (String × String)) (k : String) : String :=
  (aLookup m k).getD ""

/-- Sorted insert-or-assign, modelling `std::map::operator[] =` (the map
iterates in strictly increasing key order). -/
def mapInsert {α : Type} : List (String × α) → String → α → List (String × α)
  | [], k, v => [(k, v)]
  | (k', v') :: t, k, v =>
    if strLt k k' then (k, v) :: (k', v') :: t
    else if k = k' then (k, v) :: t
    else (k', v') :: mapInsert t k v

/-- Key removal, modelling `std::map::erase`. -/
def mapErase {α : Type} : List (String × α) → String → List (String × α)
  | [], _ => []
  | (k', v') :: t, k => if k = k' then t else (k', v') :: mapErase t k

/-- The keys of an association list. -/
def aKeys {α : Type} (m : List (String × α)) : List String :=
  m.map Prod.fst

/-- Number of entries stored under a key. -/
def keyCount {α : Type} (m : List (String × α)) (k : String) : Nat :=
  (m.filter (fun p => p.1 = k)).length

/-! ## Hexadecimal and decimal rendering -/

/-- Lowercase hexadecimal digit, as produced by `std::hex`. -/
def hexDigitChar (n : Nat) : Char :=
  if n < 10 then Char.ofNat (48 + n) else Char.ofNat (87 + n)

/-- Fixed-width big-endian hexadecimal rendering of `n`
(`std::hex << std::setw(w) << std::setfill('0')` for a value that fits in
`w` digits). -/
def toHexFixed (w : Nat) (n : Nat) : List Char :=
  (List.range w).map (fun i => hexDigitChar ((n >>> (4 * (w - 1 - i))) &&& 15))

/-! ## SHA-1 (`computeSHA1` in `MiniGit-Project.cpp`)

`MiniGit-Project.cpp` calls OpenSSL `SHA1` over the raw bytes of the string
and renders the 20-byte digest as 40 lowercase hexadecimal characters.
The compression function is embedded below over `Nat` with explicit
`% 2 ^ 32` reductions. -/

/-- 32-bit left rotation. -/
def rotl32 (n x : Nat) : Nat :=
  ((x <<< n) ||| (x >>> (32 - n))) % 2 ^ 32

/-- The SHA-1 round function for round `t`. -/
def sha1F (t b c d : Nat) : Nat :=
  if t < 20 then (b &&& c) ||| ((b ^^^ 0xFFFFFFFF) &&& d)
  else if t < 40 then b ^^^ c ^^^ d
  else if t < 60 then (b &&& c) ||| (b &&& d) ||| (c &&& d)
  else b ^^^ c ^^^ d

/-- The SHA-1 round constant for round `t`. -/
def sha1K (t : Nat) : Nat :=
  if t < 20 then 0x5A827999
  else if t < 40 then 0x6ED9EBA1
  else if t < 60 then 0x8F1BBCDC
  else 0xCA62C1D6

/-- Big-endian 8-byte rendering of a 64-bit length. -/
def be8 (n : Nat) : List Nat :=
  [n >>> 56 % 256, n >>> 48 % 256, n >>> 40 % 256, n >>> 32 % 256,
   n >>> 24 % 256, n >>> 16 % 256, n >>> 8 % 256, n % 256]

/-- SHA-1 message padding: append `0x80`, zero bytes up to 56 mod 64, and
the bit length as a big-endian 64-bit integer. -/
def sha1Pad (msg : List Nat) : List Nat :=
  msg ++ [0x80] ++ List.replicate ((119 - msg.length % 64) % 64) 0 ++
    be8 (msg.length * 8 % 2 ^ 64)

/-- Big-endian grouping of bytes into 32-bit words. -/
def bytesToWords : List Nat → List Nat
  | a :: b :: c :: d :: rest =>
      (a * 2 ^ 24 + b * 2 ^ 16 + c * 2 ^ 8 + d) :: bytesToWords rest
  | _ => []

/-- Split a padded byte list into 64-byte blocks. -/
def chunks64 : List Nat → List (List Nat)
  | [] => []
  | l@(_ :: _) => l.take 64 :: chunks64 (l.drop 64)
termination_by l => l.length
decreasing_by simp_all [List.length_drop]; omega

/-- Extend the 16 message words of a block to the 80-word schedule. -/
def sha1Schedule (ws : Array Nat) : Array Nat :=
  (List.range 64).foldl
    (fun a j =>
      let i := j + 16
      a.push (rotl32 1 ((a.getD (i - 3) 0) ^^^ (a.getD (i - 8) 0) ^^^
        (a.getD (i - 14) 0) ^^^ (a.getD (i - 16) 0))))
    ws

/-- One SHA-1 compression step. -/
def sha1Round (w : Array Nat) (st : Nat × Nat × Nat × Nat × Nat) (t : Nat) :
    Nat × Nat × Nat × Nat × Nat :=
  let (a, b, c, d, e) := st
  let temp := (rotl32 5 a + sha1F t b c d + e + w.getD t 0 + sha1K t) % 2 ^ 32
  (temp, a, rotl32 30 b, c, d)

/-- Process one 64-byte block. -/
def sha1Block (h : Nat × Nat × Nat × Nat × Nat) (block : List Nat) :
    Nat × Nat × Nat × Nat × Nat :=
  let w := sha1Schedule (Array.mk (bytesToWords block))
  let (h0, h1, h2, h3, h4) := h
  let (a, b, c, d, e) := (List.range 80).foldl (sha1Round w) (h0, h1, h2, h3, h4)
  ((h0 + a) % 2 ^ 32, (h1 + b) % 2 ^ 32, (h2 + c) % 2 ^ 32,
   (h3 + d) % 2 ^ 32, (h4 + e) % 2 ^ 32)

/-- The 20-byte SHA-1 digest of a byte sequence. -/
def sha1Digest (msg : List Nat) : List Nat :=
  let (h0, h1, h2, h3, h4) :=
    (chunks64 (sha1Pad msg)).foldl sha1Block
      (0x67452301, 0xEFCDAB89, 0x98BADCFE, 0x10325476, 0xC3D2E1F0)
  [h0 >>> 24 % 256, h0 >>> 16 % 256, h0 >>> 8 % 256, h0 % 256,
   h1 >>> 24 % 256, h1 >>> 16 % 256, h1 >>> 8 % 256, h1 % 256,
   h2 >>> 24 % 256, h2 >>> 16 % 256, h2 >>> 8 % 256, h2 % 256,
   h3 >>> 24 % 256, h3 >>> 16 % 256, h3 >>> 8 % 256, h3 % 256,
   h4 >>> 24 % 256, h4 >>> 16 % 256, h4 >>> 8 % 256, h4 % 256]

/-- UTF-8 encoding of one character; the byte view of the C++
`std::string` contents (ASCII in this project). -/
def utf8EncodeChar (c : Char) : List Nat :=
  let n := c.toNat
  if n < 0x80 then [n]
  else if n < 0x800 then [0xC0 ||| (n >>> 6), 0x80 ||| (n &&& 0x3F)]
  else if n < 0x10000 then
    [0xE0 ||| (n >>> 12), 0x80 ||| ((n >>> 6) &&& 0x3F), 0x80 ||| (n &&& 0x3F)]
  else
    [0xF0 ||| (n >>> 18), 0x80 ||| ((n >>> 12) &&& 0x3F),
     0x80 ||| ((n >>> 6) &&& 0x3F), 0x80 ||| (n &&& 0x3F)]

/-- The byte sequence underlying a string. -/
def strBytes (s : String) : List Nat :=
  s.data.flatMap utf8EncodeChar

/-- Hexadecimal rendering of a byte list, two lowercase digits per byte
(the `setw(2) << setfill('0') << hex` loop of `computeSHA1`). -/
def hexOfBytes (bs : List Nat) : List Char :=
  bs.flatMap (fun b => [hexDigitChar (b / 16 % 16), hexDigitChar (b % 16)])

/-- Embedding of `computeSHA1` (`src/MiniGit-Project.cpp`, lines 20-29):
the 40-character lowercase hexadecimal SHA-1 fingerprint of the content
bytes.  It is a pure function of the content. -/
def computeSHA1 (content : String) : String :=
  String.mk (hexOfBytes (sha1Digest (strBytes content)))

theorem sha1Digest_ne_nil (msg : List Nat) : sha1Digest msg ≠ [] := by
  simp only [sha1Digest]
  exact List.cons_ne_nil _ _

theorem hexOfBytes_ne_nil {bs : List Nat} (h : bs ≠ []) :
    hexOfBytes bs ≠ [] := by
  cases bs with
  | nil => exact absurd rfl h
  | cons b rest => simp [hexOfBytes]

/-- A SHA-1 fingerprint is never the empty string (it always renders the
20-byte digest as 40 hexadecimal characters), so the `hash.empty()`
checks downstream never fire on a hash produced by
`CommitNode::calculate_hash`. -/
theorem computeSHA1_ne_empty (s : String) : computeSHA1 s ≠ "" := by
  simp only [computeSHA1]
  intro h
  have hd : hexOfBytes (sha1Digest (strBytes s)) = [] := by
    simpa using congrArg String.data h
  exact hexOfBytes_ne_nil (sha1Digest_ne_nil _) hd

/-! ## `generate_simple_hash` (`src/unnamed/part_002`, lines 16-26)

The variant fingerprinter combines the content with the current wall-clock
second count and `std::hash<std::string>`.  `std::hash` is
implementation-defined; it is modelled here by 64-bit FNV-1a over the
bytes, a stand-in with the same type (`size_t`, reduced mod `2 ^ 64`).
The wall-clock read becomes the explicit `timestamp` parameter. -/

/-- Model of the implementation-defined `std::hash<std::string>`:
64-bit FNV-1a over the content bytes. -/
def stdHashModel (s : String) : Nat :=
  (strBytes s).foldl (fun h b => ((h ^^^ b) * 1099511628211) % 2 ^ 64)
    14695981039346656037

/-- Embedding of `generate_simple_hash`: hashes
`content + to_string(timestamp) + to_string(hasher(content))` and renders
the `size_t` result as 16 hexadecimal characters.  The `hasher` parameter
stands for `std::hash<std::string>`; `timestamp` is the wall-clock seconds
value read by the function. -/
def generate_simple_hash (hasher : String → Nat) (content : String)
    (timestamp : Nat) : String :=
  let data_to_hash := content ++ toString timestamp ++ toString (hasher content)
  String.mk (toHexFixed 16 (hasher data_to_hash % 2 ^ 64))

/-- Concatenation of a list of strings (the accumulated `stringstream`
output). -/
def strConcat : List String → String
  | [] => ""
  | s :: t => s ++ strConcat t

namespace P2

/-! ## Embedding of `src/unnamed/part_002` -/

/-- The `CommitNode` class of `part_002`: message, timestamp, parent list
and the `filename -> blob hash` map (`tracked_files`, a `std::map`
modelled as a key-sorted association list). -/
structure CommitNode where
  hash : String
  message : String
  timestamp : String
  parent_hashes : List String
  tracked_files : List (String × String)
deriving DecidableEq, Repr

/-- The default-constructed `CommitNode()` returned by `read_commit` when
the object file is missing. -/
def emptyCommit : CommitNode :=
  { hash := "", message := "", timestamp := "", parent_hashes := [],
    tracked_files := [] }

/-- Embedding of `CommitNode::serialize` (`part_002`, lines 51-64): the
git-style textual commit format, `tree` placeholder, `blob` lines in map
order, `parent` lines, author/committer lines carrying the timestamp, a
blank line, then the message body. -/
def serialize (c : CommitNode) : String :=
  "tree\n" ++
  strConcat (c.tracked_files.map (fun fh => "blob " ++ fh.2 ++ " " ++ fh.1 ++ "\n")) ++
  strConcat (c.parent_hashes.map (fun p => "parent " ++ p ++ "\n")) ++
  "author MiniGit <minigit@example.com> " ++ c.timestamp ++ "\n" ++
  "committer MiniGit <minigit@example.com> " ++ c.timestamp ++ "\n\n" ++
  c.message ++ "\n"

/-- Parser state of `CommitNode::deserialize`: the `in_message` flag, the
accumulated message, parent list, file map, and the timestamp taken from
the author line. -/
structure DeState where
  in_message : Bool
  msg : String
  parents : List String
  files : List (String × String)
  loaded_ts : String
deriving DecidableEq, Repr

/-- Processing of one `std::getline` line inside
`CommitNode::deserialize` (`part_002`, lines 76-96). -/
def deLine (st : DeState) (line : String) : DeState :=
  if line = "" ∧ st.in_message = false then { st with in_message := true }
  else if st.in_message then { st with msg := st.msg ++ line ++ "\n" }
  else if strStartsWith line "blob " then
    let toks := cppTokens line
    { st with files := mapInsert st.files ((toks.get? 2).getD "") ((toks.get? 1).getD "") }
  else if strStartsWith line "parent " then
    { st with parents := st.parents ++ [strDrop line 7] }
  else if strStartsWith line "author " then
    if 26 ≤ strLen line then { st with loaded_ts := strTakeRight line 19 } else st
  else st

/-- Embedding of `CommitNode::deserialize` (`part_002`, lines 66-103).
`hash_from_file` is the object-file name; `now` is the wall-clock
timestamp the `CommitNode` constructor would generate, used only when no
author line supplied one. -/
def deserialize (hash_from_file content now : String) : CommitNode :=
  let st := (getLines content).foldl deLine
    { in_message := false, msg := "", parents := [], files := [], loaded_ts := "" }
  { hash := hash_from_file,
    message := strPopNewline st.msg,
    timestamp := if st.loaded_ts ≠ "" then st.loaded_ts else now,
    parent_hashes := st.parents,
    tracked_files := st.files }

end P2

/-! ## Splitter lemmas -/

theorem splitP_ne_nil (p : Char → Bool) (l : List Char) (h : l ≠ []) :
    splitP p l ≠ [] := by
  cases l with
  | nil => simp at h
  | cons c t =>
    simp only [splitP]
    split
    · simp
    · split <;> simp

theorem splitP_sep_cons (p : Char → Bool) (c : Char) (a rest : List Char)
    (hc : p c = true) (ha : ∀ x ∈ a, p x = false) :
    splitP p (a ++ c :: rest) = a :: splitP p rest := by
  induction a with
  | nil => simp [splitP, hc]
  | cons x a ih =>
    have hx : p x = false := ha x (by simp)
    have ha' : ∀ y ∈ a, p y = false := fun y hy => ha y (by simp [hy])
    simp only [List.cons_append, splitP, hx, Bool.false_eq_true, if_false,
      List.append_eq, ih ha']

theorem splitP_no_sep (p : Char → Bool) (a : List Char)
    (ha : ∀ x ∈ a, p x = false) (h : a ≠ []) : splitP p a = [a] := by
  induction a with
  | nil => simp at h
  | cons x a ih =>
    have hx : p x = false := ha x (by simp)
    by_cases haa : a = []
    · subst haa; simp [splitP, hx]
    · have := ih (fun y hy => ha y (by simp [hy])) haa
      simp [splitP, hx, this]

/-- Right fold gluing line contents with newlines; the inverse image of
line splitting. -/
def unlinesData (ls : List (List Char)) : List Char :=
  ls.foldr (fun l acc => l ++ '\n' :: acc) []

theorem unlinesData_append (a b : List (List Char)) :
    unlinesData (a ++ b) = unlinesData a ++ unlinesData b := by
  induction a with
  | nil => simp [unlinesData]
  | cons x a ih => simp [unlinesData] at ih ⊢; simp [ih]

theorem splitP_unlines (ls : List (List Char)) (rest : List Char)
    (h : ∀ l ∈ ls, ∀ x ∈ l, (x = '\n') = False) :
    splitP (fun c => c = '\n') (unlinesData ls ++ rest) =
      ls.map id ++ splitP (fun c => c = '\n') rest := by
  induction ls with
  | nil => simp [unlinesData]
  | cons l ls ih =>
    have hl : ∀ x ∈ l, (decide (x = '\n')) = false := by
      intro x hx
      simp [h l (by simp) x hx]
    have : unlinesData (l :: ls) ++ rest = l ++ '\n' :: (unlinesData ls ++ rest) := by
      simp [unlinesData]
    rw [this, splitP_sep_cons _ _ _ _ (by simp) hl,
      ih (fun l' hl' => h l' (by simp [hl']))]
    simp

theorem unlines_splitNl (m : List Char) :
    unlinesData (splitP (fun c => c = '\n') (m ++ ['\n'])) = m ++ ['\n'] := by
  induction m with
  | nil => simp [splitP, unlinesData]
  | cons c m ih =>
    by_cases hc : c = '\n'
    · subst hc
      have : ('\n' :: m) ++ ['\n'] = [] ++ '\n' :: (m ++ ['\n']) := by simp
      rw [this, splitP_sep_cons _ _ _ _ (by simp) (by simp)]
      simp only [unlinesData, List.foldr] at ih ⊢
      simp [ih]
    · have hne := splitP_ne_nil (fun c => decide (c = '\n')) (m ++ ['\n']) (by simp)
      obtain ⟨a, as, heq⟩ := List.exists_cons_of_ne_nil hne
      have hcb : (decide (c = '\n')) = false := by simp [hc]
      simp only [List.cons_append, splitP, hcb, Bool.false_eq_true, if_false,
        List.append_eq, heq]
      simp only [unlinesData, List.foldr] at ih ⊢
      rw [heq] at ih
      simp only [List.foldr] at ih
      simp [ih]

theorem strConcat_lines_data {α : Type} (g : α → String) (l : List α) :
    (strConcat (l.map (fun x => g x ++ "\n"))).data =
      unlinesData (l.map (fun x => (g x).data)) := by
  induction l with
  | nil => rfl
  | cons x l ih => simp [strConcat, unlinesData, String.data_append] at ih ⊢; simp [ih]

theorem str_eq_iff_data {s t : String} : s = t ↔ s.data = t.data :=
  ⟨congrArg String.data, fun h => by cases s; cases t; exact congrArg String.mk h⟩

theorem unlinesData_nil : unlinesData [] = [] := rfl

theorem unlinesData_cons (x : List Char) (ls : List (List Char)) :
    unlinesData (x :: ls) = x ++ '\n' :: unlinesData ls := rfl

namespace P2

/-- The `blob` line serialized for one tree entry. -/
def blobLine (fh : String × String) : String :=
  "blob " ++ fh.2 ++ " " ++ fh.1

/-- The `parent` line serialized for one parent fingerprint. -/
def parentLine (p : String) : String :=
  "parent " ++ p

/-- The serialized author line. -/
def authorLine (ts : String) : String :=
  "author MiniGit <minigit@example.com> " ++ ts

/-- The serialized committer line. -/
def committerLine (ts : String) : String :=
  "committer MiniGit <minigit@example.com> " ++ ts

theorem serialize_data (c : CommitNode) : (serialize c).data =
    unlinesData ("tree".data ::
        (c.tracked_files.map (fun fh => (blobLine fh).data) ++
         c.parent_hashes.map (fun p => (parentLine p).data) ++
         [(authorLine c.timestamp).data, (committerLine c.timestamp).data, []])) ++
      (c.message.data ++ ['\n']) := by
  have hb := strConcat_lines_data blobLine c.tracked_files
  have hp := strConcat_lines_data parentLine c.parent_hashes
  simp only [blobLine, parentLine, authorLine, committerLine] at hb hp
  simp [serialize, String.data_append, unlinesData_append, unlinesData_cons,
    unlinesData_nil, hb, hp, blobLine, parentLine, authorLine, committerLine]

theorem mk_data (s : String) : String.mk s.data = s := rfl

theorem nl_false_of_not_space {x : Char} (h : isCppSpace x = false) :
    (x = '\n') = False := by
  apply eq_false
  intro he
  subst he
  simp [isCppSpace] at h

theorem nl_false_of_ne {x : Char} (h : ¬x = '\n') : (x = '\n') = False :=
  eq_false h


theorem no_nl_append {l1 l2 : List Char} (h1 : ∀ y ∈ l1, ¬y = '\n')
    (h2 : ∀ y ∈ l2, ¬y = '\n') : ∀ y ∈ l1 ++ l2, ¬y = '\n' := by
  intro y hy
  rcases List.mem_append.mp hy with h | h
  · exact h1 y h
  · exact h2 y h

theorem no_nl_of_no_space {l : List Char} (h : ∀ y ∈ l, isCppSpace y = false) :
    ∀ y ∈ l, ¬y = '\n' := by
  intro y hy he
  subst he
  have := h _ hy
  simp [isCppSpace] at this

theorem blobLine_no_nl (fh : String × String)
    (h1 : ∀ ch ∈ fh.1.data, isCppSpace ch = false)
    (h2 : ∀ ch ∈ fh.2.data, isCppSpace ch = false) :
    ∀ y ∈ (blobLine fh).data, ¬y = '\n' := by
  have : (blobLine fh).data =
      (("blob ".data ++ fh.2.data) ++ " ".data) ++ fh.1.data := by
    simp [blobLine, String.data_append]
  rw [this]
  exact no_nl_append (no_nl_append (no_nl_append (by decide)
    (no_nl_of_no_space h2)) (by decide)) (no_nl_of_no_space h1)

theorem parentLine_no_nl (p : String) (hp : ∀ ch ∈ p.data, ¬ch = '\n') :
    ∀ y ∈ (parentLine p).data, ¬y = '\n' := by
  have : (parentLine p).data = "parent ".data ++ p.data := by
    simp [parentLine, String.data_append]
  rw [this]
  exact no_nl_append (by decide) hp

theorem authorLine_no_nl (ts : String) (hts : ∀ ch ∈ ts.data, ¬ch = '\n') :
    ∀ y ∈ (authorLine ts).data, ¬y = '\n' := by
  have : (authorLine ts).data =
      "author MiniGit <minigit@example.com> ".data ++ ts.data := by
    simp [authorLine, String.data_append]
  rw [this]
  exact no_nl_append (by decide) hts

theorem committerLine_no_nl (ts : String) (hts : ∀ ch ∈ ts.data, ¬ch = '\n') :
    ∀ y ∈ (committerLine ts).data, ¬y = '\n' := by
  have : (committerLine ts).data =
      "committer MiniGit <minigit@example.com> ".data ++ ts.data := by
    simp [committerLine, String.data_append]
  rw [this]
  exact no_nl_append (by decide) hts

theorem getLines_serialize (c : CommitNode)
    (hts_nl : ∀ ch ∈ c.timestamp.data, ¬ch = '\n')
    (hpar : ∀ p ∈ c.parent_hashes, ∀ ch ∈ p.data, ¬ch = '\n')
    (hfe : ∀ fh ∈ c.tracked_files,
      (∀ ch ∈ fh.1.data, isCppSpace ch = false) ∧
      (∀ ch ∈ fh.2.data, isCppSpace ch = false)) :
    getLines (serialize c) =
      ("tree" :: (c.tracked_files.map blobLine ++ c.parent_hashes.map parentLine ++
        [authorLine c.timestamp, committerLine c.timestamp, ""])) ++
        getLines (c.message ++ "\n") := by
  have key : ∀ l ∈ ("tree".data ::
      (c.tracked_files.map (fun fh => (blobLine fh).data) ++
       c.parent_hashes.map (fun p => (parentLine p).data) ++
       [(authorLine c.timestamp).data, (committerLine c.timestamp).data, []])),
      ∀ x ∈ l, ¬x = '\n' := by
    intro l hl
    rcases List.mem_cons.mp hl with rfl | hl
    · decide
    rcases List.mem_append.mp hl with hl | hl
    · rcases List.mem_append.mp hl with hl | hl
      · obtain ⟨fh, hfh, rfl⟩ := List.mem_map.mp hl
        exact blobLine_no_nl fh (hfe fh hfh).1 (hfe fh hfh).2
      · obtain ⟨p, hp, rfl⟩ := List.mem_map.mp hl
        exact parentLine_no_nl p (hpar p hp)
    simp only [List.mem_cons, List.mem_singleton] at hl
    rcases hl with rfl | rfl | rfl | h
    · exact authorLine_no_nl _ hts_nl
    · exact committerLine_no_nl _ hts_nl
    · simp
    · simp at h
  have hnl : ∀ l ∈ ("tree".data ::
      (c.tracked_files.map (fun fh => (blobLine fh).data) ++
       c.parent_hashes.map (fun p => (parentLine p).data) ++
       [(authorLine c.timestamp).data, (committerLine c.timestamp).data, []])),
      ∀ x ∈ l, (x = '\n') = False := fun l hl x hx => eq_false (key l hl x hx)
  simp only [getLines, serialize_data c]
  rw [splitP_unlines _ _ hnl]
  simp [mk_data, String.data_append, Function.comp]
  rfl

theorem str_append_assoc (a b c : String) : a ++ b ++ c = a ++ (b ++ c) := by
  rw [str_eq_iff_data]
  simp [String.data_append]

theorem isPrefixOf_self_append {α : Type} [BEq α] [LawfulBEq α]
    (l t : List α) : l.isPrefixOf (l ++ t) = true := by
  induction l with
  | nil => simp [List.isPrefixOf]
  | cons c l ih => simp [List.isPrefixOf, ih]

theorem strStartsWith_of_exists {s pre : String}
    (h : ∃ t, s.data = pre.data ++ t) : strStartsWith s pre = true := by
  obtain ⟨t, ht⟩ := h
  simp [strStartsWith, ht, isPrefixOf_self_append]

theorem deLine_tree (st : DeState) (h : st.in_message = false) :
    deLine st "tree" = st := by
  have h1 : strStartsWith "tree" "blob " = false := rfl
  have h2 : strStartsWith "tree" "parent " = false := rfl
  have h3 : strStartsWith "tree" "author " = false := rfl
  have hne : ¬("tree" : String) = "" := by decide
  simp [deLine, h, h1, h2, h3, hne]

theorem deLine_empty (st : DeState) (h : st.in_message = false) :
    deLine st "" = { st with in_message := true } := by
  simp [deLine, h]

theorem deLine_msg (st : DeState) (line : String) (h : st.in_message = true) :
    deLine st line = { st with msg := st.msg ++ line ++ "\n" } := by
  simp [deLine, h]

theorem cppTokens_blobLine (fh : String × String)
    (h1 : fh.1.data ≠ []) (h1s : ∀ ch ∈ fh.1.data, isCppSpace ch = false)
    (h2 : fh.2.data ≠ []) (h2s : ∀ ch ∈ fh.2.data, isCppSpace ch = false) :
    cppTokens (blobLine fh) = ["blob", fh.2, fh.1] := by
  have e1 : (blobLine fh).data =
      ['b', 'l', 'o', 'b'] ++ ' ' :: (fh.2.data ++ ' ' :: fh.1.data) := by
    simp [blobLine, String.data_append]
  simp only [cppTokens, e1]
  rw [splitP_sep_cons _ _ _ _ (by decide) (by decide),
    splitP_sep_cons _ _ _ _ (by decide) h2s,
    splitP_no_sep _ _ h1s h1]
  simp [mk_data, h1, h2]

theorem deLine_blobLine (st : DeState) (fh : String × String)
    (h : st.in_message = false)
    (h1 : fh.1.data ≠ []) (h1s : ∀ ch ∈ fh.1.data, isCppSpace ch = false)
    (h2 : fh.2.data ≠ []) (h2s : ∀ ch ∈ fh.2.data, isCppSpace ch = false) :
    deLine st (blobLine fh) = { st with files := mapInsert st.files fh.1 fh.2 } := by
  have hne : ¬blobLine fh = "" := by
    simp [str_eq_iff_data, blobLine, String.data_append]
  have hsw : strStartsWith (blobLine fh) "blob " = true :=
    strStartsWith_of_exists ⟨fh.2.data ++ ' ' :: fh.1.data,
      by simp [blobLine, String.data_append]⟩
  simp [deLine, h, hne, hsw, cppTokens_blobLine fh h1 h1s h2 h2s]

theorem deLine_parentLine (st : DeState) (p : String)
    (h : st.in_message = false) :
    deLine st (parentLine p) = { st with parents := st.parents ++ [p] } := by
  have hne : ¬parentLine p = "" := by
    simp [str_eq_iff_data, parentLine, String.data_append]
  have hb : strStartsWith (parentLine p) "blob " = false := rfl
  have hp : strStartsWith (parentLine p) "parent " = true :=
    strStartsWith_of_exists ⟨p.data, by simp [parentLine, String.data_append]⟩
  have hd : strDrop (parentLine p) 7 = p := by
    have e : (parentLine p).data = "parent ".data ++ p.data := by
      simp [parentLine, String.data_append]
    rw [str_eq_iff_data]
    show List.drop 7 (parentLine p).data = p.data
    rw [e, show (7 : Nat) = "parent ".data.length from rfl, List.drop_left]
  simp [deLine, h, hne, hb, hp, hd]

theorem deLine_authorLine (st : DeState) (ts : String)
    (h : st.in_message = false) (hlen : ts.data.length = 19) :
    deLine st (authorLine ts) = { st with loaded_ts := ts } := by
  have hne : ¬authorLine ts = "" := by
    simp [str_eq_iff_data, authorLine, String.data_append]
  have hb : strStartsWith (authorLine ts) "blob " = false := rfl
  have hp : strStartsWith (authorLine ts) "parent " = false := rfl
  have ha : strStartsWith (authorLine ts) "author " = true :=
    strStartsWith_of_exists ⟨"MiniGit <minigit@example.com> ".data ++ ts.data,
      by simp [authorLine, String.data_append]⟩
  have hlen' : strLen (authorLine ts) = 56 := by
    simp [strLen, authorLine, String.data_append, hlen]
  have htr : strTakeRight (authorLine ts) 19 = ts := by
    have e : (authorLine ts).data =
        "author MiniGit <minigit@example.com> ".data ++ ts.data := by
      simp [authorLine, String.data_append]
    have e2 : (authorLine ts).data.length - 19 =
        "author MiniGit <minigit@example.com> ".data.length := by
      rw [e]
      simp [hlen]
    rw [str_eq_iff_data]
    show List.drop ((authorLine ts).data.length - 19) (authorLine ts).data = ts.data
    rw [e2, e, List.drop_left]
  simp [deLine, h, hne, hb, hp, ha, hlen', htr]

theorem deLine_committerLine (st : DeState) (ts : String)
    (h : st.in_message = false) :
    deLine st (committerLine ts) = st := by
  have hne : ¬committerLine ts = "" := by
    simp [str_eq_iff_data, committerLine, String.data_append]
  have hb : strStartsWith (committerLine ts) "blob " = false := rfl
  have hp : strStartsWith (committerLine ts) "parent " = false := rfl
  have ha : strStartsWith (committerLine ts) "author " = false := rfl
  simp [deLine, h, hne, hb, hp, ha]

theorem foldl_deLine_blobs (fs : List (String × String)) (st : DeState)
    (h : st.in_message = false)
    (hwf : ∀ fh ∈ fs, fh.1.data ≠ [] ∧ fh.2.data ≠ [] ∧
      (∀ ch ∈ fh.1.data, isCppSpace ch = false) ∧
      (∀ ch ∈ fh.2.data, isCppSpace ch = false)) :
    (fs.map blobLine).foldl deLine st =
      { st with files := fs.foldl (fun m fh => mapInsert m fh.1 fh.2) st.files } := by
  induction fs generalizing st with
  | nil => simp
  | cons fh fs ih =>
    obtain ⟨w1, w2, w3, w4⟩ := hwf fh (by simp)
    simp only [List.map_cons, List.foldl_cons]
    rw [deLine_blobLine st fh h w1 w3 w2 w4]
    rw [ih { st with files := mapInsert st.files fh.1 fh.2 } h
      (fun e he => hwf e (by simp [he]))]

theorem foldl_deLine_parents (ps : List String) (st : DeState)
    (h : st.in_message = false) :
    (ps.map parentLine).foldl deLine st = { st with parents := st.parents ++ ps } := by
  induction ps generalizing st with
  | nil => simp
  | cons p ps ih =>
    simp only [List.map_cons, List.foldl_cons]
    rw [deLine_parentLine st p h]
    rw [ih { st with parents := st.parents ++ [p] } h]
    simp

theorem foldl_deLine_msgs (ls : List String) (st : DeState)
    (h : st.in_message = true) :
    ls.foldl deLine st = { st with msg := st.msg ++ strConcat (ls.map (· ++ "\n")) } := by
  induction ls generalizing st with
  | nil => simp [strConcat]
  | cons l ls ih =>
    simp only [List.map_cons, List.foldl_cons, strConcat]
    rw [deLine_msg st l h]
    rw [ih { st with msg := st.msg ++ l ++ "\n" } h]
    simp [str_append_assoc]

theorem strLtB_irrefl : ∀ l : List Char, strLtB l l = false := by
  intro l
  induction l with
  | nil => rfl
  | cons a as ih => simp [strLtB, ih]

theorem strLtB_asymm : ∀ a b : List Char, strLtB a b = true → strLtB b a = false := by
  intro a
  induction a with
  | nil =>
    intro b h
    cases b with
    | nil => simp [strLtB] at h
    | cons y bs => simp [strLtB]
  | cons x as ih =>
    intro b h
    cases b with
    | nil => simp [strLtB] at h
    | cons y bs =>
      simp only [strLtB] at h ⊢
      by_cases h1 : x.toNat < y.toNat
      · have h2 : ¬y.toNat < x.toNat := by omega
        simp [h1, h2]
      · by_cases h2 : y.toNat < x.toNat
        · simp [h1, h2] at h
        · simp only [h1, h2, if_false] at h ⊢
          simp at h1 h2
          exact ih bs h

theorem strLtB_ne {a b : List Char} (h : strLtB a b = true) : ¬b = a := by
  intro he
  subst he
  rw [strLtB_irrefl] at h
  exact Bool.false_ne_true h

theorem mapInsert_append_of_lt {α : Type} (m : List (String × α)) (k : String)
    (v : α) (h : ∀ e ∈ m, strLt e.1 k = true) : mapInsert m k v = m ++ [(k, v)] := by
  induction m with
  | nil => rfl
  | cons e t ih =>
    have h1 : strLt e.1 k = true := h e (by simp)
    have h2 : strLt k e.1 = false := strLtB_asymm _ _ h1
    have h3 : ¬k = e.1 := by
      intro he
      exact strLtB_ne h1 (congrArg String.data he)
    simp only [mapInsert]
    rw [h2]
    simp only [Bool.false_eq_true, if_false]
    rw [if_neg h3, ih (fun x hx => h x (by simp [hx]))]
    simp

theorem foldl_mapInsert_sorted {α : Type} (fs : List (String × α)) :
    ∀ m : List (String × α),
      List.Pairwise (fun a b => strLt a.1 b.1 = true) (m ++ fs) →
      fs.foldl (fun acc fh => mapInsert acc fh.1 fh.2) m = m ++ fs := by
  induction fs with
  | nil => intro m _; simp
  | cons fh fs ih =>
    intro m hp
    simp only [List.foldl_cons]
    have hlt : ∀ e ∈ m, strLt e.1 fh.1 = true := by
      intro e he
      exact (List.pairwise_append.mp hp).2.2 e he fh (by simp)
    rw [mapInsert_append_of_lt m fh.1 fh.2 hlt]
    have hassoc : (m ++ [(fh.1, fh.2)]) ++ fs = m ++ fh :: fs := by simp
    rw [ih (m ++ [(fh.1, fh.2)]) (by rw [hassoc]; exact hp), hassoc]

theorem getLines_data (s : String) :
    (getLines s).map String.data = splitP (fun c => decide (c = '\n')) s.data := by
  simp only [getLines, List.map_map]
  have : (String.data ∘ String.mk) = id := funext fun l => rfl
  rw [this, List.map_id]

theorem strConcat_msg_data (l : List String) :
    (strConcat (l.map (fun x => x ++ "\n"))).data = unlinesData (l.map String.data) := by
  have := strConcat_lines_data (fun s => s) l
  simpa using this

theorem strPopNewline_of_data (s : String) (m : List Char)
    (h : s.data = m ++ ['\n']) : strPopNewline s = String.mk m := by
  simp [strPopNewline, h, List.getLast?_concat, List.dropLast_concat]

/-- Claim C3 (corrected, amended form): for every commit record whose
timestamp is a 19-character line, whose parent fingerprints contain no
newline, and whose tree map is key-sorted with nonempty
whitespace-free paths and fingerprints, deserializing the serialization
reproduces the message, timestamp, parent list and tree map exactly --
including messages that span multiple lines or contain blank lines (the
message is completely unconstrained).  The counterexample shows the
unrestricted claim fails for a tree entry with an empty fingerprint,
which the merge of `part_002` itself produces for conflicted paths. -/
theorem deserialize_serialize (c : CommitNode) (h now : String)
    (hts_len : c.timestamp.data.length = 19)
    (hts_nl : ∀ ch ∈ c.timestamp.data, ¬ch = '\n')
    (hpar : ∀ p ∈ c.parent_hashes, ∀ ch ∈ p.data, ¬ch = '\n')
    (hwf : ∀ fh ∈ c.tracked_files, fh.1.data ≠ [] ∧ fh.2.data ≠ [] ∧
      (∀ ch ∈ fh.1.data, isCppSpace ch = false) ∧
      (∀ ch ∈ fh.2.data, isCppSpace ch = false))
    (hsorted : List.Pairwise (fun a b => strLt a.1 b.1 = true) c.tracked_files) :
    deserialize h (serialize c) now =
      { hash := h, message := c.message, timestamp := c.timestamp,
        parent_hashes := c.parent_hashes, tracked_files := c.tracked_files } := by
  have hfe : ∀ fh ∈ c.tracked_files,
      (∀ ch ∈ fh.1.data, isCppSpace ch = false) ∧
      (∀ ch ∈ fh.2.data, isCppSpace ch = false) :=
    fun fh hf => ⟨(hwf fh hf).2.2.1, (hwf fh hf).2.2.2⟩
  simp only [deserialize]
  rw [getLines_serialize c hts_nl hpar hfe]
  rw [List.foldl_append, List.foldl_cons]
  rw [deLine_tree _ rfl]
  rw [List.foldl_append, List.foldl_append]
  rw [foldl_deLine_blobs c.tracked_files _ rfl hwf]
  rw [foldl_mapInsert_sorted c.tracked_files [] (by simpa using hsorted)]
  rw [foldl_deLine_parents c.parent_hashes _ rfl]
  rw [List.foldl_cons, deLine_authorLine _ c.timestamp rfl hts_len]
  rw [List.foldl_cons, deLine_committerLine _ c.timestamp rfl]
  rw [List.foldl_cons, deLine_empty _ rfl, List.foldl_nil]
  rw [foldl_deLine_msgs (getLines (c.message ++ "\n")) _ rfl]
  have hts_ne : ¬c.timestamp = "" := by
    intro he
    rw [he] at hts_len
    simp at hts_len
  have hmsg : strPopNewline
      (strConcat ((getLines (c.message ++ "\n")).map (fun x => x ++ "\n"))) =
      c.message := by
    have hdata : (strConcat
        ((getLines (c.message ++ "\n")).map (fun x => x ++ "\n"))).data =
        c.message.data ++ ['\n'] := by
      rw [strConcat_msg_data, getLines_data]
      have e : (c.message ++ "\n").data = c.message.data ++ ['\n'] := by
        simp [String.data_append]
      rw [e, unlines_splitNl]
    rw [strPopNewline_of_data _ c.message.data hdata]
  simp [hmsg, hts_ne]

/-! ## The `part_002` repository state and merge machinery -/

/-- The on-disk repository state of the `part_002` variant: the shared
`objects/` directory (blobs and serialized commits), the
`refs/heads/<name>` files (keyed by branch name, holding the first line),
the first line of the `HEAD` file, the in-memory staging area, and the
working tree outside `.minigit` (`filename -> file contents`). -/
structure Repo where
  objects : List (String × String)
  branches : List (String × String)
  headLine : String
  staging : List (String × String)
  workTree : List (String × String)
deriving DecidableEq, Repr

/-- Embedding of `read_blob`: the contents stored under `objects/<hash>`,
or `""` (after an error message) when the object is missing; `read_blob`
of the empty hash also yields `""`. -/
def read_blob (r : Repo) (hash : String) : String :=
  (aLookup r.objects hash).getD ""

/-- Embedding of `read_commit`: reads `objects/<hash>` and deserializes
it; a missing file yields the default-constructed `CommitNode()`.  `now`
stands for the wall clock the deserializing constructor would read (it is
only used when the author line is absent). -/
def read_commit (r : Repo) (hash now : String) : CommitNode :=
  match aLookup r.objects hash with
  | some content => deserialize hash content now
  | none => emptyCommit

/-- Embedding of `get_head_hash`: resolve `HEAD`; a `ref: refs/heads/X`
line is resolved through the branch file (missing branch file reads as
`""`), otherwise `HEAD` holds a detached commit hash. -/
def get_head_hash (r : Repo) : String :=
  if strStartsWith r.headLine "ref: " then
    (aLookup r.branches (strDrop r.headLine 16)).getD ""
  else r.headLine

/-- Embedding of `update_head`: write the new hash through an attached
`HEAD` into the branch file, or directly into `HEAD` when detached. -/
def update_head (r : Repo) (new_hash : String) : Repo :=
  if strStartsWith r.headLine "ref: " then
    { r with branches := mapInsert r.branches (strDrop r.headLine 16) new_hash }
  else { r with headLine := new_hash }

/-- Embedding of `write_conflict_file` (`part_002`, lines 242-245): the
exact file contents written for a conflicted path. -/
def write_conflict_file (ours theirs : String) : String :=
  "<<<<<<< OURS\n" ++ ours ++ "\n=======\n" ++ theirs ++ "\n>>>>>>> THEIRS\n"

/-- The per-path three-way classification of `merge_file_maps`
(`part_002`, lines 261-281): given the base/our/their fingerprints (with
`""` for an absent path), either a merged fingerprint or a conflict. -/
def mergeClassify (base_hash our_hash their_hash : String) : Option String :=
  if our_hash = their_hash then some our_hash
  else if base_hash = our_hash then some their_hash
  else if base_hash = their_hash then some our_hash
  else none

/-- One step of the `merge_file_maps` loop for path `f`: updates the
merged map, the conflict flag, and the list of conflict files written to
the working directory. -/
def mergeFileStep (r : Repo) (base ours theirs : List (String × String))
    (st : List (String × String) × Bool × List (String × String))
    (f : String) : List (String × String) × Bool × List (String × String) :=
  let base_hash := aFind base f
  let our_hash := aFind ours f
  let their_hash := aFind theirs f
  match mergeClassify base_hash our_hash their_hash with
  | some h => (mapInsert st.1 f h, st.2.1, st.2.2)
  | none =>
      let our_content := if our_hash = "" then "" else read_blob r our_hash
      let their_content := if their_hash = "" then "" else read_blob r their_hash
      (mapInsert st.1 f "", true,
        st.2.2 ++ [(f, write_conflict_file our_content their_content)])

/-- Insertion of a path into a list sorted by `strLt`. -/
def sortedInsert (x : String) : List String → List String
  | [] => [x]
  | y :: t => if strLt x y then x :: y :: t else y :: sortedInsert x t

/-- The union of the three path sets, in sorted order (a deterministic
model of the iteration order of the `unordered_set` in
`merge_file_maps`; the result map and flag do not depend on it). -/
def allMergePaths (base ours theirs : List (String × String)) : List String :=
  (aKeys base ++ aKeys ours ++ aKeys theirs).dedup.foldr sortedInsert []

/-- Embedding of `merge_file_maps` (`part_002`, lines 248-285): returns
the merged map, the conflict flag, and the conflict files materialized in
the working directory (in iteration order). -/
def merge_file_maps (r : Repo) (base ours theirs : List (String × String)) :
    List (String × String) × Bool × List (String × String) :=
  (allMergePaths base ours theirs).foldl (mergeFileStep r base ours theirs)
    ([], false, [])

/-- The apostrophe character (code 39), used in merge commit messages. -/
def squote : Char := Char.ofNat 39

/-- First breadth-first pass of `find_lca` (`part_002`, lines 217-225):
pop the front, mark it visited, and enqueue its nonempty unvisited
parents.  The first argument bounds the number of pops (the C++ loop
terminates because the stored commit graph is acyclic and the visited
check stops re-enqueuing; the bound is a modeling device and the
theorems use a bound large enough that it is never reached). -/
def lcaVisit (r : Repo) (now : String) : Nat → List String → List String → List String
  | 0, _, visited => visited
  | _ + 1, [], visited => visited
  | fuel + 1, cur :: q, visited =>
      let visited' := if cur ∈ visited then visited else visited ++ [cur]
      let c := read_commit r cur now
      lcaVisit r now fuel
        (q ++ c.parent_hashes.filter (fun p => ¬p = "" ∧ p ∉ visited')) visited'

/-- Second breadth-first pass of `find_lca` (`part_002`, lines 227-236):
pop the front, return it if the first pass visited it, otherwise enqueue
all nonempty parents (this pass keeps no visited set of its own). -/
def lcaSearch (r : Repo) (now : String) (visited : List String) :
    Nat → List String → String
  | 0, _ => ""
  | _ + 1, [] => ""
  | fuel + 1, cur :: q =>
      if cur ∈ visited then cur
      else
        let c := read_commit r cur now
        lcaSearch r now visited fuel (q ++ c.parent_hashes.filter (fun p => ¬p = ""))

/-- Embedding of `find_lca` (`part_002`, lines 211-239). -/
def find_lca (r : Repo) (now : String) (fuel : Nat) (hash1 hash2 : String) : String :=
  if hash1 = "" ∨ hash2 = "" then ""
  else lcaSearch r now (lcaVisit r now fuel [hash1] []) fuel [hash2]

/-- Embedding of `checkout_files` (`part_002`, lines 202-208): overwrite
each tracked file in the working directory with its blob contents. -/
def checkout_files (r : Repo) (files : List (String × String)) : Repo :=
  { r with workTree := files.foldl (fun wt fh => mapInsert wt fh.1 (read_blob r fh.2)) r.workTree }

/-- Outcome reported by the `part_002` `merge`. -/
inductive MergeRes where
  | noBranch : MergeRes
  | noCommits : MergeRes
  | noLca : MergeRes
  | done : Bool → String → MergeRes
deriving DecidableEq, Repr

/-- Embedding of `MiniGit::merge` (`part_002`, lines 421-471).  `ctorNow`
is the wall-clock timestamp the merge-commit constructor formats;
`hashNow` is the wall-clock seconds value `generate_simple_hash` reads
when fingerprinting the serialized merge commit; `fuel` bounds the
`find_lca` traversals.  Note that the function creates the merge commit,
moves the head, and materializes the merged map whether or not conflicts
occurred; `done conflict h` reports the conflict flag and the new commit
hash. -/
def merge (r : Repo) (branch_name ctorNow : String) (hashNow : Nat)
    (fuel : Nat) : Repo × MergeRes :=
  match aLookup r.branches branch_name with
  | none => (r, .noBranch)
  | some their_hash =>
    let current_hash := get_head_hash r
    if current_hash = "" then (r, .noCommits)
    else
      let lca_hash := find_lca r ctorNow fuel current_hash their_hash
      if lca_hash = "" then (r, .noLca)
      else
        let base_commit := read_commit r lca_hash ctorNow
        let our_commit := read_commit r current_hash ctorNow
        let their_commit := read_commit r their_hash ctorNow
        let res := merge_file_maps r base_commit.tracked_files
          our_commit.tracked_files their_commit.tracked_files
        let merged := res.1
        let conflict := res.2.1
        let writes := res.2.2
        let r1 := { r with
          workTree := writes.foldl
            (fun wt (fc : String × String) => mapInsert wt fc.1 fc.2) r.workTree }
        let msg := "Merge branch " ++ String.mk [squote] ++ branch_name ++
          String.mk [squote]
        let mc0 : CommitNode :=
          ⟨"", msg, ctorNow, [current_hash, their_hash], merged⟩
        let mc : CommitNode :=
          ⟨generate_simple_hash stdHashModel (serialize mc0) hashNow,
            msg, ctorNow, [current_hash, their_hash], merged⟩
        let r2 := { r1 with objects := mapInsert r1.objects mc.hash (serialize mc) }
        let r3 := update_head r2 mc.hash
        let r4 := checkout_files r3 mc.tracked_files
        (r4, .done conflict mc.hash)

end P2

namespace MGP

/-! ## Embedding of `src/MiniGit-Project.cpp` -/

/-- The `CommitNode` class of `MiniGit-Project.cpp`: single `parent_hash`
plus the `parent_hashes` list used for merges, and the
`filename -> blob hash` map. -/
structure CommitNode where
  hash : String
  message : String
  timestamp : String
  parent_hash : String
  parent_hashes : List String
  tracked_files : List (String × String)
deriving DecidableEq, Repr

/-- The all-empty record produced by the deserialization constructor when
a commit file exists but none of its lines carries a recognized field (in
particular no `hash:` line): that constructor copies the parsed fields
verbatim and does NOT recompute the hash, so the `hash` field stays
empty.  Note that a MISSING commit file is different: there
`read_commit_object` returns `CommitNode("", "", {})` built by the main
constructor, which stamps the current time and computes a SHA-1 over it,
yielding a NONEMPTY `hash`. -/
def invalidCommit : CommitNode :=
  { hash := "", message := "", timestamp := "", parent_hash := "",
    parent_hashes := [], tracked_files := [] }

/-- The string hashed by `CommitNode::calculate_hash` (lines 78-88):
message, timestamp, `parent_hash`, the parent list, then every
`filename`/`blob hash` pair of the tree map in map order. -/
def calcHashInput (msg ts parent_h : String) (parents : List String)
    (files : List (String × String)) : String :=
  msg ++ ts ++ parent_h ++ strConcat parents ++
    strConcat (files.map (fun p => p.1 ++ p.2))

/-- The main `CommitNode` constructor (lines 50-62): formats the current
time (`nowTs` parameter), derives `parent_hashes` from the single parent,
and computes the SHA-1 hash of the serialized fields. -/
def mkCommit (msg parent_h : String) (files : List (String × String))
    (nowTs : String) : CommitNode :=
  let parents := if parent_h = "" then [] else [parent_h]
  { hash := computeSHA1 (calcHashInput msg nowTs parent_h parents files),
    message := msg, timestamp := nowTs, parent_hash := parent_h,
    parent_hashes := parents, tracked_files := files }

/-- Embedding of `CommitNode::add_parent` (lines 69-75).  Note that the
commit hash is not recomputed. -/
def add_parent (c : CommitNode) (p : String) : CommitNode :=
  let ph := c.parent_hashes ++ [p]
  { c with
    parent_hashes := ph
    parent_hash := if ph.length = 1 then p else c.parent_hash }

/-- The on-disk state of the `MiniGit-Project.cpp` repository:
`objects/` (blobs only), `commits/` (commit objects; `none` models a file
that exists but does not parse), `refs/heads/<name>` branch files,
the first line of `refs/HEAD`, the `index` file (= in-memory staging
area), and the working tree outside `.minigit`. -/
structure Repo where
  objects : List (String × String)
  commits : List (String × Option CommitNode)
  branches : List (String × String)
  headLine : String
  index : List (String × String)
  workTree : List (String × String)
deriving DecidableEq, Repr

/-- Embedding of `save_blob` (lines 451-465): compute the SHA-1
fingerprint and write the object only when `objects/<hash>` does not
exist yet; returns the fingerprint. -/
def save_blob (objects : List (String × String)) (content : String) :
    List (String × String) × String :=
  let hash := computeSHA1 content
  if (aLookup objects hash).isSome then (objects, hash)
  else (mapInsert objects hash content, hash)

/-- Embedding of `read_blob` (lines 467-477): the stored bytes, or `""`
(after an error message) when the object is absent. -/
def read_blob (r : Repo) (hash : String) : String :=
  (aLookup r.objects hash).getD ""

/-- Embedding of `save_commit_object` (lines 479-498): (over)write
`commits/<hash>` with the serialized record. -/
def save_commit_object (r : Repo) (c : CommitNode) : Repo :=
  { r with commits := mapInsert r.commits c.hash (some c) }

/-- Embedding of `read_commit_object` (lines 500-541).  An existing file
is parsed field-by-field (a file with no `hash:` line yields the
all-empty record, modelled by `none` in `commits`).  A MISSING file
yields `CommitNode("", "", {})` via the main constructor (lines 50-62):
that constructor reads the clock (`nowTs`) and runs `calculate_hash`, so
the returned record carries a nonempty 40-character `hash` (the SHA-1 of
the fresh timestamp) with empty message, parents and tree - downstream
`hash.empty()` error checks therefore do NOT fire for missing objects. -/
def read_commit_object (r : Repo) (hash nowTs : String) : CommitNode :=
  match aLookup r.commits hash with
  | some (some c) => c
  | some none => invalidCommit
  | none => mkCommit "" "" [] nowTs

/-- Embedding of `get_head_commit_hash` (lines 543-569): resolve an
attached `HEAD` through its branch file (returning the raw `ref: ...`
line when the branch file does not exist), or return the detached hash.
`HEAD` lines written by the program always have the form
`ref: refs/heads/<name>`, whose branch name starts at offset 16. -/
def get_head_commit_hash (r : Repo) : String :=
  if strStartsWith r.headLine "ref: " then
    match aLookup r.branches (strDrop r.headLine 16) with
    | some line => line
    | none => r.headLine
  else r.headLine

/-- Embedding of `update_head` (lines 571-593): write the new hash into
the branch file when `HEAD` is attached, into `HEAD` itself otherwise. -/
def update_head (r : Repo) (hash : String) : Repo :=
  if strStartsWith r.headLine "ref: refs/heads/" then
    { r with branches := mapInsert r.branches (strDrop r.headLine 16) hash }
  else { r with headLine := hash }

/-- Embedding of `get_current_branch_name` (lines 670-685). -/
def get_current_branch_name (r : Repo) : String :=
  if strStartsWith r.headLine "ref: refs/heads/" then strDrop r.headLine 16
  else "detached HEAD"

/-- Outcome reported by `commit`. -/
inductive CommitRes where
  | emptyIndex : CommitRes
  | committed : String → CommitRes
deriving DecidableEq, Repr

/-- Embedding of `MiniGit::commit` (lines 139-162): an empty staging
area aborts with "Nothing to commit" before anything is touched;
otherwise the staged map becomes a new commit, the head moves, and the
index is cleared and persisted. -/
def commit (r : Repo) (message nowTs : String) : Repo × CommitRes :=
  if r.index = [] then (r, .emptyIndex)
  else
    let parent0 := get_head_commit_hash r
    let parent_hash := if strStartsWith parent0 "ref: " then "" else parent0
    let new_commit := mkCommit message parent_hash r.index nowTs
    let r1 := save_commit_object r new_commit
    let r2 := update_head r1 new_commit.hash
    ({ r2 with index := [] }, .committed new_commit.hash)

/-- Outcome reported by `checkout`. -/
inductive ChkRes where
  | switched : ChkRes
  | detached : ChkRes
  | unknownTarget : ChkRes
  | readError : ChkRes
deriving DecidableEq, Repr

/-- The working-tree restoration half of `checkout` (lines 258-285):
first every entry other than `.minigit` is removed from the working
directory, then the commit object is read.  Only a parsed-but-empty
`hash` field reaches the error branch; a MISSING commit object comes
back with a nonempty freshly-stamped hash and an empty tree, so the
restore branch runs, restores zero files, and the already-reported
success message stands. -/
def checkoutRestore (r : Repo) (hash nowTs : String) (res : ChkRes) :
    Repo × ChkRes :=
  let r1 := { r with workTree := [] }
  let c := read_commit_object r hash nowTs
  if c.hash = "" then (r1, .readError)
  else
    let wt := c.tracked_files.foldl (fun w fh => mapInsert w fh.1 (read_blob r fh.2)) []
    ({ r1 with workTree := wt }, res)

/-- Embedding of `MiniGit::checkout` (lines 231-286): an existing branch
name attaches `HEAD` and restores that branch tip (an empty branch file
skips restoration); otherwise a 40-character name naming an existing
commit object detaches `HEAD` onto it and restores; otherwise the
command reports `not found` and changes nothing.  `nowTs` is the clock
value stamped by the bogus-commit constructor should the commit object
be missing. -/
def checkout (r : Repo) (target_ref nowTs : String) : Repo × ChkRes :=
  match aLookup r.branches target_ref with
  | some line =>
      let r1 := { r with headLine := "ref: refs/heads/" ++ target_ref }
      if line = "" then (r1, .switched)
      else checkoutRestore r1 line nowTs .switched
  | none =>
      if strLen target_ref = 40 ∧ (aLookup r.commits target_ref).isSome then
        checkoutRestore { r with headLine := target_ref } target_ref nowTs
          .detached
      else (r, .unknownTarget)

/-- The parent fingerprints followed from `hash` by `getAncestors`
(lines 614-628).  A stored commit whose `hash` field parsed empty is
skipped by the `commit.hash.empty()` check; a MISSING commit object
yields the freshly-stamped bogus commit, which passes that check but
carries an empty parent list - either way no parents are followed, so
the result does not depend on the clock and the `nowTs` argument of
`read_commit_object` is elided here. -/
def parentsOf (r : Repo) (hash : String) : List String :=
  match aLookup r.commits hash with
  | some (some c) => if c.hash = "" then [] else c.parent_hashes
  | some none => []
  | none => []

/-- Every parent fingerprint mentioned by any stored commit; the finite
universe bounding the ancestor traversal. -/
def allParents (r : Repo) : Finset String :=
  r.commits.foldr
    (fun kc acc => acc ∪ (match kc.2 with
      | some c => c.parent_hashes.toFinset
      | none => ∅)) ∅

theorem aLookup_mem {α : Type} {m : List (String × α)} {k : String} {v : α}
    (h : aLookup m k = some v) : (k, v) ∈ m := by
  induction m with
  | nil => simp [aLookup] at h
  | cons e t ih =>
    obtain ⟨k', v'⟩ := e
    simp only [aLookup] at h
    split at h
    · simp_all
    · simp [ih h]

theorem mem_allParents_of_mem (l : List (String × Option CommitNode))
    (k : String) (c : CommitNode) (hm : (k, some c) ∈ l) :
    ∀ p ∈ c.parent_hashes,
      p ∈ l.foldr
        (fun kc acc => acc ∪ (match kc.2 with
          | some c => c.parent_hashes.toFinset
          | none => ∅)) ∅ := by
  intro p hp
  induction l with
  | nil => simp at hm
  | cons e t ih =>
    simp only [List.foldr, Finset.mem_union]
    rcases List.mem_cons.mp hm with rfl | hm'
    · right
      simp [hp]
    · left
      exact ih hm'

theorem parentsOf_subset_allParents (r : Repo) (hash : String) :
    ∀ p ∈ parentsOf r hash, p ∈ allParents r := by
  intro p hp
  cases hlk : aLookup r.commits hash with
  | none =>
    simp [parentsOf, hlk] at hp
  | some oc =>
    cases oc with
    | none =>
      simp [parentsOf, hlk] at hp
    | some c =>
      simp only [parentsOf, hlk] at hp
      split at hp
      · simp at hp
      · exact mem_allParents_of_mem r.commits hash c (aLookup_mem hlk) p hp

/-- The worklist loop of `getAncestors` (lines 606-631): pop an entry,
read its commit, and insert-and-push every parent not seen before.
`visited` collects the result in insertion order (a deterministic model
of the `unordered_set`; the membership result is order-independent).
The first argument bounds the number of iterations and `none` signals
that the bound was hit; the loop of the C++ code has no such bound, and
the theorem below proves that within `ancFuel` the loop always reaches
its regular empty-worklist exit, which is exactly the termination the
specification demands.  The branch on `pushed = []` mirrors the fact
that a step that inserts nothing only shrinks the worklist. -/
def ancLoop (r : Repo) : Nat → List String → List String → Option (List String)
  | 0, _, _ => none
  | _ + 1, visited, [] => some visited
  | fuel + 1, visited, cur :: rest =>
    let pushed := ((parentsOf r cur).filter (fun p => p ∉ visited)).dedup
    if pushed = [] then ancLoop r fuel visited rest
    else ancLoop r fuel (visited ++ pushed) (pushed ++ rest)

/-- An a-priori bound on the iterations of the ancestor worklist: every
pushed fingerprint is a parent mentioned in the store and is pushed at
most once, so the number of pops never exceeds the initial worklist plus
the number of distinct parents. -/
def ancFuel (r : Repo) : Nat := (allParents r).card + 2

/-- Embedding of `getAncestors` (lines 606-631): the set of fingerprints
reached from `hash` (itself included) by repeatedly following parent
lists; the empty hash yields the empty set.  A theorem below proves the
fuel bound is never reached, so the `getD` default is dead code. -/
def getAncestors (r : Repo) (hash : String) : List String :=
  if hash = "" then [] else (ancLoop r (ancFuel r) [hash] [hash]).getD []

/-- Reachability along parent links in the stored commit graph: the
commits the specification requires `ancestors` to return. -/
inductive Reach (r : Repo) (h : String) : String → Prop where
  | refl : Reach r h h
  | step : ∀ {y p : String}, Reach r h y → p ∈ parentsOf r y → Reach r h p

theorem pushed_card_split (r : Repo) (visited pushed : List String)
    (hnd : pushed.Nodup)
    (hsub : ∀ q ∈ pushed, q ∈ allParents r ∧ q ∉ visited) :
    (allParents r \ (visited ++ pushed).toFinset).card + pushed.length =
      (allParents r \ visited.toFinset).card := by
  have htf : (visited ++ pushed).toFinset = visited.toFinset ∪ pushed.toFinset := by
    simp [List.toFinset_append]
  have hsd : allParents r \ (visited ++ pushed).toFinset =
      (allParents r \ visited.toFinset) \ pushed.toFinset := by
    rw [htf, Finset.sdiff_union_distrib]
    rw [Finset.sdiff_sdiff_left']
  have hpsub : pushed.toFinset ⊆ allParents r \ visited.toFinset := by
    intro q hq
    rw [List.mem_toFinset] at hq
    obtain ⟨h1, h2⟩ := hsub q hq
    simp [Finset.mem_sdiff, h1, h2]
  rw [hsd, Finset.card_sdiff hpsub]
  have hlen : pushed.toFinset.card = pushed.length := by
    rw [List.toFinset_card_of_nodup hnd]
  rw [hlen]
  have : pushed.length ≤ (allParents r \ visited.toFinset).card := by
    rw [← hlen]
    exact Finset.card_le_card hpsub
  omega

theorem ancLoop_spec (r : Repo) :
    ∀ (fuel : Nat) (visited stack : List String),
      stack.length + (allParents r \ visited.toFinset).card + 1 ≤ fuel →
      (∀ y ∈ visited, y ∈ stack ∨ ∀ p ∈ parentsOf r y, p ∈ visited) →
      ∃ res, ancLoop r fuel visited stack = some res ∧
        (∀ x ∈ visited, x ∈ res) ∧
        (∀ y ∈ res, ∀ p ∈ parentsOf r y, p ∈ res) := by
  intro fuel
  induction fuel with
  | zero => intro visited stack hb; omega
  | succ fuel ih =>
    intro visited stack hb hinv
    match stack with
    | [] =>
      refine ⟨visited, rfl, fun x hx => hx, ?_⟩
      intro y hy p hp
      rcases hinv y hy with h | h
      · simp at h
      · exact h p hp
    | cur :: rest =>
      simp only [ancLoop]
      by_cases hpe : ((parentsOf r cur).filter (fun p => p ∉ visited)).dedup = []
      · rw [if_pos hpe]
        have hcur_par : ∀ p ∈ parentsOf r cur, p ∈ visited := by
          intro p hp
          by_contra hc
          have : p ∈ ((parentsOf r cur).filter (fun p => p ∉ visited)).dedup :=
            List.mem_dedup.mpr (List.mem_filter.mpr ⟨hp, by simpa using hc⟩)
          rw [hpe] at this
          simp at this
        apply ih visited rest
        · simp only [List.length_cons] at hb
          omega
        · intro y hy
          rcases hinv y hy with h | h
          · rcases List.mem_cons.mp h with rfl | h2
            · right; exact hcur_par
            · left; exact h2
          · right; exact h
      · rw [if_neg hpe]
        set pushed := ((parentsOf r cur).filter (fun p => p ∉ visited)).dedup with hpdef
        have hprop : ∀ q ∈ pushed, q ∈ allParents r ∧ q ∉ visited := by
          intro q hq
          have hmem := List.mem_dedup.mp hq
          refine ⟨parentsOf_subset_allParents r cur q (List.mem_of_mem_filter hmem), ?_⟩
          simpa using (List.mem_filter.mp hmem).2
        have hcard := pushed_card_split r visited pushed (List.nodup_dedup _) hprop
        have hb2 : (pushed ++ rest).length +
            (allParents r \ (visited ++ pushed).toFinset).card + 1 ≤ fuel := by
          simp only [List.length_append, List.length_cons] at hb ⊢
          omega
        have hinv2 : ∀ y ∈ visited ++ pushed, y ∈ pushed ++ rest ∨
            ∀ p ∈ parentsOf r y, p ∈ visited ++ pushed := by
          intro y hy
          rcases List.mem_append.mp hy with hyv | hyp
          · rcases hinv y hyv with h | h
            · rcases List.mem_cons.mp h with rfl | h2
              · right
                intro p hp
                by_cases hc : p ∈ visited
                · simp [hc]
                · have : p ∈ pushed :=
                    List.mem_dedup.mpr (List.mem_filter.mpr ⟨hp, by simpa using hc⟩)
                  simp [this]
              · left; simp [h2]
            · right
              intro p hp
              simp [h p hp]
          · left
            simp [hyp]
        obtain ⟨res, hres, hsub, hclosed⟩ :=
          ih (visited ++ pushed) (pushed ++ rest) hb2 hinv2
        exact ⟨res, hres, fun x hx => hsub x (by simp [hx]), hclosed⟩

/-- Embedding of `find_common_ancestor` (lines 634-653): the first
fingerprint of `ancestors(hash1)` (in the modelled iteration order) that
also lies in `ancestors(hash2)`, read as a commit.  An empty
intersection returns `CommitNode("", "", {})` built by the main
constructor, i.e. a freshly-stamped record with a NONEMPTY hash and an
empty tree, so the caller's `hash.empty()` check does not fire and
merging proceeds against an empty base tree; the same happens when the
chosen ancestor's commit file is missing.  The check fires only when
that file exists but parses with an empty `hash:` field. -/
def find_common_ancestor (r : Repo) (hash1 hash2 nowTs : String) : CommitNode :=
  let a1 := getAncestors r hash1
  let a2 := getAncestors r hash2
  match a1.find? (fun anc => decide (anc ∈ a2)) with
  | some anc => read_commit_object r anc nowTs
  | none => mkCommit "" "" [] nowTs

/-- Embedding of `add_conflict_markers` (lines 655-668): the exact file
contents written for a conflicted path (note the `HEAD`/`incoming`
labels and the absence of separator newlines after the contents). -/
def add_conflict_markers (current_content incoming_content : String) : String :=
  "<<<<<<< HEAD\n" ++ current_content ++ "=======\n" ++ incoming_content ++
    ">>>>>>> incoming\n"

/-- State threaded through the two merge reconciliation loops: the
merged tree map, the conflict flag, and the working tree (conflicted
files are written to disk the moment they are found). -/
structure MergeSt where
  merged : List (String × String)
  conflict : Bool
  workTree : List (String × String)
deriving DecidableEq, Repr

/-- One iteration of the first merge loop (lines 326-375), which walks
the target branch tree map. -/
def mergeLoop1Step (r : Repo) (cur_files anc_files : List (String × String))
    (st : MergeSt) (ft : String × String) : MergeSt :=
  let f := ft.1
  let t := ft.2
  let c := aFind cur_files f
  let a := aFind anc_files f
  if c = "" ∧ a = "" then { st with merged := mapInsert st.merged f t }
  else if c = "" ∧ ¬a = "" then
    if ¬t = a then
      { st with
        conflict := true
        workTree := mapInsert st.workTree f
          (add_conflict_markers (read_blob r c) (read_blob r t)) }
    else { st with merged := mapErase st.merged f }
  else if ¬c = "" ∧ a = "" then
    if ¬t = c then
      { st with
        conflict := true
        workTree := mapInsert st.workTree f
          (add_conflict_markers (read_blob r c) (read_blob r t)) }
    else st
  else
    if c = t then st
    else if c = a then { st with merged := mapInsert st.merged f t }
    else if t = a then st
    else
      { st with
        conflict := true
        workTree := mapInsert st.workTree f
          (add_conflict_markers (read_blob r c) (read_blob r t)) }

/-- One iteration of the second merge loop (lines 378-394), which walks
the current tree map looking for paths deleted in the target branch. -/
def mergeLoop2Step (r : Repo) (their_files anc_files : List (String × String))
    (st : MergeSt) (fc : String × String) : MergeSt :=
  let f := fc.1
  let c := fc.2
  let t := aFind their_files f
  let a := aFind anc_files f
  if (aLookup their_files f).isNone ∧ ¬a = "" ∧ c = a then
    { st with merged := mapErase st.merged f }
  else if (aLookup their_files f).isNone ∧ ¬a = "" ∧ ¬c = a then
    { st with
      conflict := true
      workTree := mapInsert st.workTree f
        (add_conflict_markers (read_blob r c) (read_blob r t)) }
  else st

/-- Outcome reported by the `MiniGit-Project.cpp` `merge`. -/
inductive MergeRes where
  | noBranch : MergeRes
  | upToDate : MergeRes
  | noAncestor : MergeRes
  | conflict : MergeRes
  | merged : String → MergeRes
deriving DecidableEq, Repr

/-- Embedding of `MiniGit::merge` (lines 289-440).  `nowTs` is the
timestamp string the wall clock formats for any `CommitNode` constructor
run during the merge (the merge commit, and any bogus commit built for a
missing object).  On the conflict path only the conflict-marked files have been
written to the working tree; no commit is created and no reference
moves.  On the clean path the working tree is cleared and rebuilt from
the merged map, a two-parent commit is stored (its hash computed before
the parents are attached), the head is updated, and the index is
cleared. -/
def merge (r : Repo) (branch_name nowTs : String) : Repo × MergeRes :=
  let current := get_head_commit_hash r
  match aLookup r.branches branch_name with
  | none => (r, .noBranch)
  | some their =>
    if current = their then (r, .upToDate)
    else
      let anc := find_common_ancestor r current their nowTs
      if anc.hash = "" then (r, .noAncestor)
      else
        let curC := read_commit_object r current nowTs
        let theirC := read_commit_object r their nowTs
        let st0 : MergeSt := ⟨curC.tracked_files, false, r.workTree⟩
        let st1 := theirC.tracked_files.foldl
          (mergeLoop1Step r curC.tracked_files anc.tracked_files) st0
        let st2 := curC.tracked_files.foldl
          (mergeLoop2Step r theirC.tracked_files anc.tracked_files) st1
        if st2.conflict then ({ r with workTree := st2.workTree }, .conflict)
        else
          let wt := st2.merged.foldl
            (fun w fh => mapInsert w fh.1 (read_blob r fh.2)) []
          let msg := "Merge branch " ++ String.mk [P2.squote] ++ branch_name ++
            String.mk [P2.squote] ++ " into " ++ get_current_branch_name r
          let mc := add_parent (add_parent (mkCommit msg "" st2.merged nowTs)
            current) their
          let r1 := save_commit_object { r with workTree := wt } mc
          let r2 := update_head r1 mc.hash
          ({ r2 with index := [] }, .merged mc.hash)

end MGP

/-! ## Concrete repository states used by the claim witnesses -/

/-- Base commit of the conflict scenario for claim C2: tree `y -> bY1`,
`z -> bA`. -/
def C2cmA : MGP.CommitNode :=
  ⟨"hA", "base", "t0", "", [], [("y", "bY1"), ("z", "bA")]⟩

/-- Our-side commit of the C2 scenario: `z` changed to `bB`. -/
def C2cmB : MGP.CommitNode :=
  ⟨"hB", "ours", "t1", "hA", ["hA"], [("y", "bY1"), ("z", "bB")]⟩

/-- Their-side commit of the C2 scenario: `y` changed to `bY2` and `z`
changed to `bC` (so `z` conflicts and `y` merges cleanly). -/
def C2cmC : MGP.CommitNode :=
  ⟨"hC", "theirs", "t2", "hA", ["hA"], [("y", "bY2"), ("z", "bC")]⟩

/-- The C2 scenario repository: `master` at `hB`, `feat` at `hC`, common
ancestor `hA`. -/
def C2repo : MGP.Repo :=
  { objects := [("bA", "A\n"), ("bB", "B\n"), ("bC", "C\n"),
      ("bY1", "Y1\n"), ("bY2", "Y2\n")],
    commits := [("hA", some C2cmA), ("hB", some C2cmB), ("hC", some C2cmC)],
    branches := [("feat", "hC"), ("master", "hB")],
    headLine := "ref: refs/heads/master",
    index := [],
    workTree := [("y", "Y1\n"), ("z", "B\n")] }

/-! ## Claim C1 -/

/-- Claim C1 (code bug): the blob fingerprint of the `part_002` variant
is NOT deterministic in the content: `generate_simple_hash` feeds the
wall-clock second count into the hashed data, so fingerprinting the same
bytes at two different seconds yields two different fingerprints (and
`save_blob` then stores the same content twice).  This theorem evaluates
the embedded fingerprinter at the failing input: content `"hello"`
hashed at clock values 0 and 1. -/
theorem C1_blob_fingerprint_time_dependent :
    generate_simple_hash stdHashModel "hello" 0 ≠
      generate_simple_hash stdHashModel "hello" 1 := by
  decide

/-! ## Claim C7 -/

/-- Claim C7 (confirmed): committing with an empty index fails with
"Nothing to commit" and is a complete no-op: the returned state is the
input state, so no commit object is written, no branch or `HEAD` pointer
moves, and the index (empty) is untouched. -/
theorem C7_commit_empty_index (r : MGP.Repo) (msg nowTs : String)
    (h : r.index = []) :
    MGP.commit r msg nowTs = (r, MGP.CommitRes.emptyIndex) := by
  simp [MGP.commit, h]

/-- A small repository with an empty index for the C7 witness. -/
def C7repo : MGP.Repo :=
  { objects := [("b1", "hello\n")],
    commits := [("h1", some ⟨"h1", "first", "t0", "", [], [("a.txt", "b1")]⟩)],
    branches := [("master", "h1")],
    headLine := "ref: refs/heads/master",
    index := [],
    workTree := [("a.txt", "hello\n")] }

/-- Witness for C7 at a concrete repository with an empty index. -/
theorem C7_commit_empty_witness :
    MGP.commit C7repo "msg" "t9" = (C7repo, MGP.CommitRes.emptyIndex) :=
  C7_commit_empty_index C7repo "msg" "t9" (by decide)

/-! ## Claim C2 -/

/-- Claim C2 (corrected): when the `MiniGit-Project.cpp` merge classifies
at least one path as a conflict it reports failure and creates no commit
object, moves no branch or `HEAD` pointer, and leaves the index
untouched (so an empty index remains empty); only the working tree
changes, by the conflict-marked files written during reconciliation.
The clause of the original claim that the non-conflicted merged files
are also materialized is refuted by the counterexample: on the conflict
path the merged map is discarded without touching those files. -/
theorem C2_merge_conflict_preserves_refs (r r' : MGP.Repo) (b nowTs : String)
    (h : MGP.merge r b nowTs = (r', MGP.MergeRes.conflict)) :
    r'.commits = r.commits ∧ r'.branches = r.branches ∧
    r'.headLine = r.headLine ∧ r'.index = r.index := by
  unfold MGP.merge at h
  split at h
  · simp at h
  · simp only [] at h
    split at h
    · simp at h
    · split at h
      · simp at h
      · split at h
        · rw [Prod.mk.injEq] at h
          obtain ⟨h1, -⟩ := h
          subst h1
          exact ⟨rfl, rfl, rfl, rfl⟩
        · simp at h

/-- Witness for C2: the concrete scenario with a content conflict on `z`
(changed to `B` on ours, `C` on theirs, from ancestor `A`). -/
theorem C2_merge_conflict_witness :
    (MGP.merge C2repo "feat" "tM").1.commits = C2repo.commits ∧
    (MGP.merge C2repo "feat" "tM").1.branches = C2repo.branches ∧
    (MGP.merge C2repo "feat" "tM").1.headLine = C2repo.headLine ∧
    (MGP.merge C2repo "feat" "tM").1.index = C2repo.index :=
  C2_merge_conflict_preserves_refs C2repo (MGP.merge C2repo "feat" "tM").1
    "feat" "tM" (by decide)

/-- Counterexample to C2 as stated: in the C2 scenario the path `y`
merges cleanly (ours kept the ancestor fingerprint `bY1`, theirs changed
it to `bY2`), so the claim requires the merged content `Y2` to be
materialized in the working tree; the conflict path of the code never
writes it, and `y` keeps its old content. -/
theorem C2_merge_conflict_counterexample :
    (MGP.merge C2repo "feat" "tM").2 = MGP.MergeRes.conflict ∧
    ¬aLookup (MGP.merge C2repo "feat" "tM").1.workTree "y" =
      some (MGP.read_blob C2repo "bY2") := by
  decide

/-! ## Claim C3: witness and counterexample -/

/-- A commit whose message spans multiple lines and contains a blank
line, with two parents and a two-entry tree map. -/
def C3commit : P2.CommitNode :=
  { hash := "",
    message := "line1\n\nline3",
    timestamp := "2024-01-02 03:04:05",
    parent_hashes := ["p1", "p2"],
    tracked_files := [("a.txt", "h1"), ("b.txt", "h2")] }

/-- Witness for C3: the round trip reproduces the multi-line message
with its blank line, the timestamp, both parents and the tree map. -/
theorem C3_roundtrip_witness :
    P2.deserialize "H" (P2.serialize C3commit) "NOW" =
      { hash := "H", message := C3commit.message,
        timestamp := C3commit.timestamp,
        parent_hashes := C3commit.parent_hashes,
        tracked_files := C3commit.tracked_files } :=
  P2.deserialize_serialize C3commit "H" "NOW" (by decide) (by decide)
    (by decide) (by decide) (by decide)

/-- A commit carrying an empty blob fingerprint, exactly what the
`part_002` merge stores for a conflicted path (`merged[f] = ""`). -/
def C3badCommit : P2.CommitNode :=
  { hash := "",
    message := "m",
    timestamp := "2024-01-02 03:04:05",
    parent_hashes := [],
    tracked_files := [("f", "")] }

/-- Counterexample to C3 as stated: with an empty fingerprint the `blob`
line serializes as `blob  f`, the tokenizer then reads `f` as the
fingerprint and leaves the path empty, so the tree map does not round
trip. -/
theorem C3_roundtrip_counterexample :
    ¬(P2.deserialize "H" (P2.serialize C3badCommit) "NOW").tracked_files =
      C3badCommit.tracked_files := by
  decide

/-! ## Claim C4 -/

theorem keyCount_zero_of_not_mem {α : Type} (m : List (String × α)) (k : String)
    (h : k ∉ aKeys m) : keyCount m k = 0 := by
  induction m with
  | nil => rfl
  | cons e t ih =>
    simp only [aKeys, List.map_cons, List.mem_cons] at h
    push_neg at h
    have hd : (decide (e.1 = k)) = false := decide_eq_false (fun he => h.1 he.symm)
    simp only [keyCount, List.filter, hd]
    exact ih (by simpa [aKeys] using h.2)

theorem keyCount_one_of_nodup_some {α : Type} (m : List (String × α))
    (k : String) (v : α) (hnd : (aKeys m).Nodup) (h : aLookup m k = some v) :
    keyCount m k = 1 := by
  induction m with
  | nil => simp [aLookup] at h
  | cons e t ih =>
    obtain ⟨k', v'⟩ := e
    simp only [aKeys, List.map_cons, List.nodup_cons] at hnd
    simp only [aLookup] at h
    split at h
    · rename_i hk
      subst hk
      have hd : (decide ((k, v').1 = k)) = true := by simp
      simp only [keyCount, List.filter, hd, List.length_cons]
      have h0 : keyCount t k = 0 :=
        keyCount_zero_of_not_mem t k (by simpa [aKeys] using hnd.1)
      simp only [keyCount] at h0
      simp [h0]
    · rename_i hk
      have hd : (decide ((k', v').1 = k)) = false :=
        decide_eq_false (by simpa using fun he => hk he.symm)
      simp only [keyCount, List.filter, hd]
      exact ih (by simpa [aKeys] using hnd.2) h

theorem aLookup_mapInsert_self {α : Type} (m : List (String × α)) (k : String)
    (v : α) : aLookup (mapInsert m k v) k = some v := by
  induction m with
  | nil => simp [mapInsert, aLookup]
  | cons e t ih =>
    obtain ⟨k', v'⟩ := e
    simp only [mapInsert]
    split
    · simp [aLookup]
    · split
      · simp [aLookup]
      · rename_i hk
        simp only [aLookup]
        rw [if_neg hk]
        exact ih

theorem keyCount_mapInsert_new {α : Type} (m : List (String × α)) (k : String)
    (v : α) (h : keyCount m k = 0) : keyCount (mapInsert m k v) k = 1 := by
  induction m with
  | nil => simp [mapInsert, keyCount, List.filter]
  | cons e t ih =>
    obtain ⟨k', v'⟩ := e
    have hk' : ¬k' = k := by
      intro he
      simp [keyCount, List.filter, he] at h
    have hd : (decide ((k', v').1 = k)) = false := decide_eq_false (by simpa using hk')
    have ht : keyCount t k = 0 := by
      simpa [keyCount, List.filter, hd] using h
    simp only [mapInsert]
    split
    · have hdk : (decide ((k, v).1 = k)) = true := by simp
      simp only [keyCount, List.filter, hdk, hd, List.length_cons]
      simp only [keyCount] at ht
      simp [ht]
    · split
      · rename_i _ hke
        exact absurd hke.symm hk'
      · simp only [keyCount, List.filter, hd] at ih ⊢
        exact ih ht

theorem aLookup_none_not_mem {α : Type} {m : List (String × α)} {k : String}
    (h : aLookup m k = none) : k ∉ aKeys m := by
  induction m with
  | nil => simp [aKeys]
  | cons e t ih =>
    obtain ⟨k', v'⟩ := e
    simp only [aLookup] at h
    split at h
    · simp at h
    · rename_i hk
      simp only [aKeys, List.map_cons, List.mem_cons]
      push_neg
      exact ⟨hk, by simpa [aKeys] using ih h⟩

/-- Claim C4 (confirmed): blob storage is idempotent.  Starting from any
object store without duplicate file names, storing the same content
twice returns the same SHA-1 fingerprint both times, the second call
leaves the store unchanged, and exactly one object is stored under that
fingerprint. -/
theorem C4_save_blob_idempotent (objects : List (String × String)) (x : String)
    (hnd : (aKeys objects).Nodup) :
    ∃ o1 f, MGP.save_blob objects x = (o1, f) ∧
      MGP.save_blob o1 x = (o1, f) ∧ keyCount o1 f = 1 := by
  cases hl : aLookup objects (computeSHA1 x) with
  | some v =>
    have e1 : MGP.save_blob objects x = (objects, computeSHA1 x) := by
      simp [MGP.save_blob, hl]
    exact ⟨objects, computeSHA1 x, e1, e1,
      keyCount_one_of_nodup_some objects (computeSHA1 x) v hnd hl⟩
  | none =>
    have e1 : MGP.save_blob objects x =
        (mapInsert objects (computeSHA1 x) x, computeSHA1 x) := by
      simp [MGP.save_blob, hl]
    have e2 : MGP.save_blob (mapInsert objects (computeSHA1 x) x) x =
        (mapInsert objects (computeSHA1 x) x, computeSHA1 x) := by
      simp [MGP.save_blob, aLookup_mapInsert_self]
    have h0 : keyCount objects (computeSHA1 x) = 0 :=
      keyCount_zero_of_not_mem objects (computeSHA1 x) (aLookup_none_not_mem hl)
    exact ⟨_, _, e1, e2, keyCount_mapInsert_new objects (computeSHA1 x) x h0⟩

/-- Witness for C4: storing `"hello"` twice into the empty object
store. -/
theorem C4_save_blob_witness :
    ∃ o1 f, MGP.save_blob [] "hello" = (o1, f) ∧
      MGP.save_blob o1 "hello" = (o1, f) ∧ keyCount o1 f = 1 :=
  C4_save_blob_idempotent [] "hello" (by decide)

/-! ## Claim C5 -/

/-- Claim C5 (confirmed): checkout target resolution.  A target naming
an existing branch resolves to that branch and leaves `HEAD` attached
(`ref: refs/heads/<target>`); otherwise a 40-character target naming an
existing commit object leaves `HEAD` detached onto that fingerprint;
otherwise checkout fails with `not found` and returns the state
unchanged.  (`readError` can additionally be reported after the `HEAD`
update when the commit object itself is unreadable; see claim C10.) -/
theorem C5_checkout_resolution (r : MGP.Repo) (t nowTs : String) :
    (∀ line, aLookup r.branches t = some line →
      (MGP.checkout r t nowTs).1.headLine = "ref: refs/heads/" ++ t ∧
      ((MGP.checkout r t nowTs).2 = MGP.ChkRes.switched ∨
        (MGP.checkout r t nowTs).2 = MGP.ChkRes.readError)) ∧
    (aLookup r.branches t = none →
      strLen t = 40 → (aLookup r.commits t).isSome = true →
      (MGP.checkout r t nowTs).1.headLine = t ∧
      ((MGP.checkout r t nowTs).2 = MGP.ChkRes.detached ∨
        (MGP.checkout r t nowTs).2 = MGP.ChkRes.readError)) ∧
    (aLookup r.branches t = none →
      ¬(strLen t = 40 ∧ (aLookup r.commits t).isSome = true) →
      MGP.checkout r t nowTs = (r, MGP.ChkRes.unknownTarget)) := by
  refine ⟨?_, ?_, ?_⟩
  · intro line hl
    simp only [MGP.checkout, hl]
    split
    · exact ⟨rfl, Or.inl rfl⟩
    · simp only [MGP.checkoutRestore]
      split
      · exact ⟨rfl, Or.inr rfl⟩
      · exact ⟨rfl, Or.inl rfl⟩
  · intro hl h40 hsome
    simp only [MGP.checkout, hl]
    rw [if_pos ⟨h40, hsome⟩]
    simp only [MGP.checkoutRestore]
    split
    · exact ⟨rfl, Or.inr rfl⟩
    · exact ⟨rfl, Or.inl rfl⟩
  · intro hl hno
    simp only [MGP.checkout, hl]
    rw [if_neg hno]

/-- A repository for the C5 witness: branch `feature` exists, a
40-character commit fingerprint is stored, and `nosuch` is neither. -/
def C5repo : MGP.Repo :=
  { objects := [("b1", "hello\n")],
    commits :=
      [("aaaaaaaaaaaaaaaaaaaaaaaaaaaaaaaaaaaaaaaa",
        some ⟨"aaaaaaaaaaaaaaaaaaaaaaaaaaaaaaaaaaaaaaaa", "first", "t0", "",
          [], [("a.txt", "b1")]⟩)],
    branches := [("feature", "aaaaaaaaaaaaaaaaaaaaaaaaaaaaaaaaaaaaaaaa")],
    headLine := "ref: refs/heads/feature",
    index := [],
    workTree := [] }

/-- Witness for C5: all three resolution cases at concrete targets. -/
theorem C5_checkout_witness :
    ((MGP.checkout C5repo "feature" "t9").1.headLine =
        "ref: refs/heads/" ++ "feature" ∧
      ((MGP.checkout C5repo "feature" "t9").2 = MGP.ChkRes.switched ∨
        (MGP.checkout C5repo "feature" "t9").2 = MGP.ChkRes.readError)) ∧
    ((MGP.checkout C5repo "aaaaaaaaaaaaaaaaaaaaaaaaaaaaaaaaaaaaaaaa"
          "t9").1.headLine =
        "aaaaaaaaaaaaaaaaaaaaaaaaaaaaaaaaaaaaaaaa" ∧
      ((MGP.checkout C5repo "aaaaaaaaaaaaaaaaaaaaaaaaaaaaaaaaaaaaaaaa" "t9").2 =
          MGP.ChkRes.detached ∨
        (MGP.checkout C5repo "aaaaaaaaaaaaaaaaaaaaaaaaaaaaaaaaaaaaaaaa" "t9").2 =
          MGP.ChkRes.readError)) ∧
    MGP.checkout C5repo "nosuch" "t9" = (C5repo, MGP.ChkRes.unknownTarget) :=
  ⟨(C5_checkout_resolution C5repo "feature" "t9").1
      "aaaaaaaaaaaaaaaaaaaaaaaaaaaaaaaaaaaaaaaa" (by decide),
    (C5_checkout_resolution C5repo "aaaaaaaaaaaaaaaaaaaaaaaaaaaaaaaaaaaaaaaa"
      "t9").2.1 (by decide) (by decide) (by decide),
    (C5_checkout_resolution C5repo "nosuch" "t9").2.2 (by decide) (by decide)⟩

/-! ## Claim C10 -/

/-- Claim C10 (corrected): checkout is not atomic, but the read failure
is only REPORTED for a commit file that exists and parses with an empty
`hash:` field.  Part 1: a branch tip whose commit file exists but does
not parse ends in a reported read error with `HEAD` already rewritten
and the working tree already emptied.  Part 2: the same for a
40-character target naming such a file (detached).  Part 3 refutes the
original claim's universal error report: a branch tip whose commit file
is MISSING produces a bogus commit with a freshly-stamped nonempty hash,
so the error branch is skipped, zero files are restored, and checkout
reports plain success - the working tree is still destroyed and `HEAD`
still rewritten, silently. -/
theorem C10_checkout_not_atomic (r : MGP.Repo) (t line nowTs : String) :
    (aLookup r.branches t = some line → ¬line = "" →
      (MGP.read_commit_object r line nowTs).hash = "" →
      MGP.checkout r t nowTs =
        ({ r with headLine := "ref: refs/heads/" ++ t, workTree := [] },
          MGP.ChkRes.readError)) ∧
    (aLookup r.branches t = none → strLen t = 40 →
      aLookup r.commits t = some none →
      MGP.checkout r t nowTs =
        ({ r with headLine := t, workTree := [] }, MGP.ChkRes.readError)) ∧
    (aLookup r.branches t = some line → ¬line = "" →
      aLookup r.commits line = none →
      MGP.checkout r t nowTs =
        ({ r with headLine := "ref: refs/heads/" ++ t, workTree := [] },
          MGP.ChkRes.switched)) := by
  refine ⟨?_, ?_, ?_⟩
  · intro hl hne hread
    simp only [MGP.checkout, hl]
    rw [if_neg hne]
    simp only [MGP.checkoutRestore]
    split
    · rfl
    · rename_i hc
      exact absurd hread hc
  · intro hl h40 hsome
    simp only [MGP.checkout, hl]
    rw [if_pos ⟨h40, by rw [hsome]; rfl⟩]
    simp only [MGP.checkoutRestore]
    have hinv : (MGP.read_commit_object r t nowTs).hash = "" := by
      simp [MGP.read_commit_object, hsome, MGP.invalidCommit]
    split
    · rfl
    · rename_i hc
      exact absurd hinv hc
  · intro hl hne hmiss
    simp only [MGP.checkout, hl]
    rw [if_neg hne]
    simp only [MGP.checkoutRestore, MGP.read_commit_object, hmiss]
    have hno : ¬(MGP.mkCommit "" "" [] nowTs).hash = "" := by
      simp only [MGP.mkCommit]
      exact computeSHA1_ne_empty _
    rw [if_neg hno]
    rfl

/-- A repository for the C10 scenarios: branch `broken` points at a
stored 40-character commit file that does not parse, and branch
`dangling` points at a missing commit object. -/
def C10repo : MGP.Repo :=
  { objects := [],
    commits := [("bbbbbbbbbbbbbbbbbbbbbbbbbbbbbbbbbbbbbbbb", none)],
    branches := [("broken", "bbbbbbbbbbbbbbbbbbbbbbbbbbbbbbbbbbbbbbbb"),
      ("dangling", "hMissing")],
    headLine := "ref: refs/heads/broken",
    index := [],
    workTree := [("old.txt", "old\n")] }

/-- Witness for C10: all three concrete scenarios - both reported
failure modes leave the rewritten `HEAD` and the emptied working tree
behind, and the missing-object checkout destroys the tree while
reporting success. -/
theorem C10_checkout_witness :
    MGP.checkout C10repo "broken" "t0" =
      ({ C10repo with
          headLine := "ref: refs/heads/" ++ "broken"
          workTree := [] }, MGP.ChkRes.readError) ∧
    MGP.checkout C10repo "bbbbbbbbbbbbbbbbbbbbbbbbbbbbbbbbbbbbbbbb" "t0" =
      ({ C10repo with
          headLine := "bbbbbbbbbbbbbbbbbbbbbbbbbbbbbbbbbbbbbbbb"
          workTree := [] }, MGP.ChkRes.readError) ∧
    MGP.checkout C10repo "dangling" "t0" =
      ({ C10repo with
          headLine := "ref: refs/heads/" ++ "dangling"
          workTree := [] }, MGP.ChkRes.switched) :=
  ⟨(C10_checkout_not_atomic C10repo "broken"
      "bbbbbbbbbbbbbbbbbbbbbbbbbbbbbbbbbbbbbbbb" "t0").1 (by decide)
      (by decide) (by decide),
    (C10_checkout_not_atomic C10repo "bbbbbbbbbbbbbbbbbbbbbbbbbbbbbbbbbbbbbbbb"
      "x" "t0").2.1 (by decide) (by decide) (by decide),
    (C10_checkout_not_atomic C10repo "dangling" "hMissing" "t0").2.2
      (by decide) (by decide) (by decide)⟩

set_option maxRecDepth 100000 in
/-- Counterexample to C10 as stated: checking out `dangling`, whose
commit object cannot be read (the file is missing), rewrites `HEAD` and
empties the working tree but reports `switched`, not a failure - the
original claim's premise that such a checkout reports a failure at all
is false. -/
theorem C10_checkout_counterexample :
    MGP.checkout C10repo "dangling" "t0" =
      ({ C10repo with
          headLine := "ref: refs/heads/" ++ "dangling"
          workTree := [] }, MGP.ChkRes.switched) ∧
    ¬MGP.ChkRes.switched = MGP.ChkRes.readError := by
  constructor
  · decide
  · decide

/-! ## Claim C6 -/

theorem mergeFileStep_writes_mono (r : P2.Repo)
    (base ours theirs : List (String × String))
    (st : List (String × String) × Bool × List (String × String)) (x : String)
    (p : String × String) (hp : p ∈ st.2.2) :
    p ∈ (P2.mergeFileStep r base ours theirs st x).2.2 := by
  unfold P2.mergeFileStep
  simp only []
  split
  · exact hp
  · simp [hp]

theorem foldl_mergeFileStep_writes_mono (r : P2.Repo)
    (base ours theirs : List (String × String)) (l : List String) :
    ∀ st (p : String × String), p ∈ st.2.2 →
      p ∈ (l.foldl (P2.mergeFileStep r base ours theirs) st).2.2 := by
  induction l with
  | nil => exact fun st p hp => hp
  | cons x l ih =>
    intro st p hp
    exact ih _ p (mergeFileStep_writes_mono r base ours theirs st x p hp)

theorem conflict_write_in_fold (r : P2.Repo)
    (base ours theirs : List (String × String)) (l : List String) :
    ∀ st (f : String), f ∈ l →
      P2.mergeClassify (aFind base f) (aFind ours f) (aFind theirs f) = none →
      (f, P2.write_conflict_file
          (if aFind ours f = "" then "" else P2.read_blob r (aFind ours f))
          (if aFind theirs f = "" then "" else P2.read_blob r (aFind theirs f)))
        ∈ (l.foldl (P2.mergeFileStep r base ours theirs) st).2.2 := by
  induction l with
  | nil => simp
  | cons x l ih =>
    intro st f hf hc
    simp only [List.foldl_cons]
    rcases List.mem_cons.mp hf with rfl | hf'
    · apply foldl_mergeFileStep_writes_mono
      unfold P2.mergeFileStep
      simp only []
      rw [hc]
      simp
    · exact ih _ f hf' hc

/-- Claim C6 (corrected, amended form): in the `part_002` merge engine,
every path classified as conflicting is materialized with exactly the
claimed markers: the line `<<<<<<< OURS`, the our-side blob content
(empty if the path is absent on our side), the line `=======`, the
their-side content (empty if absent), and the line `>>>>>>> THEIRS`.
The counterexample shows the `MiniGit-Project.cpp` variant instead
labels its markers `<<<<<<< HEAD` and `>>>>>>> incoming`, so the claim
as stated fails there. -/
theorem C6_conflict_marker_format (r : P2.Repo)
    (base ours theirs : List (String × String)) (f : String)
    (hmem : f ∈ P2.allMergePaths base ours theirs)
    (hconf : P2.mergeClassify (aFind base f) (aFind ours f) (aFind theirs f) = none) :
    (f, "<<<<<<< OURS\n" ++
        (if aFind ours f = "" then "" else P2.read_blob r (aFind ours f)) ++
        "\n=======\n" ++
        (if aFind theirs f = "" then "" else P2.read_blob r (aFind theirs f)) ++
        "\n>>>>>>> THEIRS\n")
      ∈ (P2.merge_file_maps r base ours theirs).2.2 := by
  unfold P2.merge_file_maps
  exact conflict_write_in_fold r base ours theirs _ _ f hmem hconf

/-- A `part_002` repository holding the two conflicting blob contents
for the C6 witness. -/
def C6p2repo : P2.Repo :=
  { objects := [("bB", "B\n"), ("bC", "C\n")],
    branches := [],
    headLine := "ref: refs/heads/main",
    staging := [],
    workTree := [] }

/-- Witness for C6: the modify/modify conflict on `z` (`A` to `B` on
ours, `A` to `C` on theirs) is written with exactly the claimed
markers. -/
theorem C6_conflict_marker_witness :
    ("z", "<<<<<<< OURS\n" ++
        (if aFind [("z", "bB")] "z" = "" then ""
          else P2.read_blob C6p2repo (aFind [("z", "bB")] "z")) ++
        "\n=======\n" ++
        (if aFind [("z", "bC")] "z" = "" then ""
          else P2.read_blob C6p2repo (aFind [("z", "bC")] "z")) ++
        "\n>>>>>>> THEIRS\n")
      ∈ (P2.merge_file_maps C6p2repo [("z", "bA")] [("z", "bB")]
          [("z", "bC")]).2.2 :=
  C6_conflict_marker_format C6p2repo [("z", "bA")] [("z", "bB")] [("z", "bC")]
    "z" (by decide) (by decide)

/-- Base commit of the C6 counterexample scenario. -/
def C6cmA : MGP.CommitNode := ⟨"hA", "base", "t0", "", [], [("z", "bA")]⟩

/-- Our-side commit of the C6 counterexample scenario. -/
def C6cmB : MGP.CommitNode := ⟨"hB", "ours", "t1", "hA", ["hA"], [("z", "bB")]⟩

/-- Their-side commit of the C6 counterexample scenario. -/
def C6cmC : MGP.CommitNode := ⟨"hC", "theirs", "t2", "hA", ["hA"], [("z", "bC")]⟩

/-- The `MiniGit-Project.cpp` repository of the C6 counterexample:
`master` at `hB`, `feat` at `hC`, ancestor `hA`, `z` modified on both
sides. -/
def C6repo : MGP.Repo :=
  { objects := [("bA", "A\n"), ("bB", "B\n"), ("bC", "C\n")],
    commits := [("hA", some C6cmA), ("hB", some C6cmB), ("hC", some C6cmC)],
    branches := [("feat", "hC"), ("master", "hB")],
    headLine := "ref: refs/heads/master",
    index := [],
    workTree := [("z", "B\n")] }

/-- Counterexample to C6 as stated: in `MiniGit-Project.cpp` the
conflicted file is written with `<<<<<<< HEAD` and `>>>>>>> incoming`
labels; the string `OURS` does not occur in it at all. -/
theorem C6_conflict_marker_counterexample :
    (MGP.merge C6repo "feat" "tM").2 = MGP.MergeRes.conflict ∧
    aLookup (MGP.merge C6repo "feat" "tM").1.workTree "z" =
      some "<<<<<<< HEAD\nB\n=======\nC\n>>>>>>> incoming\n" ∧
    ¬("<<<<<<< OURS".data <:+:
      ("<<<<<<< HEAD\nB\n=======\nC\n>>>>>>> incoming\n" : String).data) := by
  decide

/-! ## Claim C8 -/

/-- The single commit of the C8 scenario, tracking `a.txt`. -/
def C8commit : P2.CommitNode :=
  { hash := "",
    message := "first",
    timestamp := "2024-01-01 10:00:00",
    parent_hashes := [],
    tracked_files := [("a.txt", "b1")] }

/-- The `part_002` repository of the C8 scenario: branches `main` and
`feat` both at commit `h0`, `HEAD` attached to `main`. -/
def C8repo : P2.Repo :=
  { objects := [("h0", P2.serialize C8commit), ("b1", "hello\n")],
    branches := [("main", "h0"), ("feat", "h0")],
    headLine := "ref: refs/heads/main",
    staging := [],
    workTree := [] }

set_option maxRecDepth 100000 in
/-- Claim C8 (code bug): merging a branch into itself is NOT a no-op in
the `part_002` merge.  With `HEAD` and the target branch both at `h0`,
`merge feat` finds `h0` as its own common ancestor, reconciles the tree
with itself without conflicts, and then still creates a fresh merge
commit with parent list `[h0, h0]` and moves the `main` branch pointer
to it: the object store grows by one and the branch no longer points at
`h0`.  (`MiniGit-Project.cpp` has the guard the specification demands:
equal tips report "Already up to date" and change nothing.) -/
theorem C8_self_merge_not_noop :
    (P2.merge C8repo "feat" "2024-01-02 12:00:00" 100 50).1.objects.length =
      C8repo.objects.length + 1 ∧
    ¬aLookup (P2.merge C8repo "feat" "2024-01-02 12:00:00" 100 50).1.branches
      "main" = some "h0" ∧
    (P2.merge C8repo "feat" "2024-01-02 12:00:00" 100 50).2 ≠
      P2.MergeRes.noBranch := by
  decide

/-! ## Claim C9 -/

/-- Claim C9 (confirmed): `getAncestors` terminates and is complete.
The worklist reaches its regular empty-stack exit within the a-priori
iteration bound `ancFuel` (the loop never hits the bound, which is the
termination of the unbounded C++ loop, repeated visits included), and
the returned set contains `H` itself together with every commit
reachable from `H` along parent links. -/
theorem C9_ancestors_terminate_and_complete (r : MGP.Repo) (h : String)
    (hne : ¬h = "") :
    (MGP.ancLoop r (MGP.ancFuel r) [h] [h]).isSome = true ∧
    ∀ x : String, MGP.Reach r h x → x ∈ MGP.getAncestors r h := by
  have hb : ([h] : List String).length +
      (MGP.allParents r \ ([h] : List String).toFinset).card + 1 ≤
        MGP.ancFuel r := by
    have hle : (MGP.allParents r \ ([h] : List String).toFinset).card ≤
        (MGP.allParents r).card :=
      Finset.card_le_card (Finset.sdiff_subset)
    simp only [List.length_singleton, MGP.ancFuel]
    omega
  have hinv : ∀ y ∈ ([h] : List String), y ∈ ([h] : List String) ∨
      ∀ p ∈ MGP.parentsOf r y, p ∈ ([h] : List String) :=
    fun y hy => Or.inl hy
  obtain ⟨res, hres, hsub, hclosed⟩ := MGP.ancLoop_spec r (MGP.ancFuel r) [h] [h] hb hinv
  have hget : MGP.getAncestors r h = res := by
    simp [MGP.getAncestors, hne, hres]
  refine ⟨by rw [hres]; rfl, ?_⟩
  intro x hx
  rw [hget]
  induction hx with
  | refl => exact hsub h (by simp)
  | step hy hp ih => exact hclosed _ ih _ hp

/-- Base commit of the C9 diamond. -/
def C9cmA : MGP.CommitNode := ⟨"hA", "base", "t0", "", [], []⟩

/-- Left branch commit of the C9 diamond. -/
def C9cmB : MGP.CommitNode := ⟨"hB", "left", "t1", "hA", ["hA"], []⟩

/-- Right branch commit of the C9 diamond. -/
def C9cmC : MGP.CommitNode := ⟨"hC", "right", "t2", "hA", ["hA"], []⟩

/-- Merge commit of the C9 diamond: two parents, so `hA` is reachable
along two paths. -/
def C9cmD : MGP.CommitNode := ⟨"hD", "merge", "t3", "hB", ["hB", "hC"], []⟩

/-- A repository storing the C9 diamond graph. -/
def C9repo : MGP.Repo :=
  { objects := [],
    commits := [("hA", some C9cmA), ("hB", some C9cmB), ("hC", some C9cmC),
      ("hD", some C9cmD)],
    branches := [("master", "hD")],
    headLine := "ref: refs/heads/master",
    index := [],
    workTree := [] }

/-- Witness for C9: on the diamond, the traversal from `hD` terminates
and contains the root `hA` reached through `hB`. -/
theorem C9_ancestors_witness :
    (MGP.ancLoop C9repo (MGP.ancFuel C9repo) ["hD"] ["hD"]).isSome = true ∧
    "hA" ∈ MGP.getAncestors C9repo "hD" :=
  ⟨(C9_ancestors_terminate_and_complete C9repo "hD" (by decide)).1,
    (C9_ancestors_terminate_and_complete C9repo "hD" (by decide)).2 "hA"
      (@MGP.Reach.step C9repo "hD" "hB" "hA"
        (@MGP.Reach.step C9repo "hD" "hD" "hB" MGP.Reach.refl (by decide))
        (by decide))⟩
